import Mathlib

/-!
Verification of `sensor_converter.py`, a batch utility that converts two JSON
sensor-data schemas into a unified schema, merges, sorts and saves the result.

The embedding models JSON documents as an inductive `Json` type (numbers are
decimal mantissa/exponent pairs, which is exact for every numeric literal the
program reads or writes), Python `dict.get` with default-`None` semantics,
Python truthiness, CPython's `datetime.strptime` matching of the format
`"%Y-%m-%dT%H:%M:%SZ"` (which per the CPython `_strptime` regexes accepts
1- or 2-digit month/day/hour/minute/second fields and matches the literal
`T`/`Z` case-insensitively), and `datetime.timestamp()` on the resulting naive
datetime, which interprets the parsed fields in the process's local timezone.
That local timezone is made explicit as an integer offset parameter `tz`
(seconds east of UTC): `tz = 0` is a process running with `TZ=UTC`.
-/

namespace SensorConverter

/-- JSON values. Numbers are modelled as exact decimals `m / 10 ^ e`
(mantissa and decimal exponent), which represents every JSON numeric literal
and every number the program itself produces. -/
inductive Json where
  | null : Json
  | bool (b : Bool) : Json
  | num (m : Int) (e : Nat) : Json
  | str (s : String) : Json
  | arr (items : List Json) : Json
  | obj (fields : List (String × Json)) : Json

/-- Python `x is None`: in the embedding both an absent key and a stored JSON
`null` are Python `None`. -/
def Json.isNull : Json → Bool
  | .null => true
  | _ => false

/-- Python `entry.get(key)` on a dict: the stored value, or `None` when the
key is absent.  A stored JSON `null` is also Python `None`, so both cases
return `Json.null`. -/
def pyGet : List (String × Json) → String → Json
  | [], _ => .null
  | (k, v) :: rest, key => if k = key then v else pyGet rest key

/-- Python truthiness of a JSON value (`bool(x)`). -/
def truthy : Json → Bool
  | .null => false
  | .bool b => b
  | .num m _ => m ≠ 0
  | .str s => s ≠ ""
  | .arr [] => false
  | .arr (_ :: _) => true
  | .obj [] => false
  | .obj (_ :: _) => true

/-! ### Calendar arithmetic (proleptic Gregorian, as in Python `datetime`) -/

def isLeap (y : Nat) : Bool := y % 4 == 0 && (y % 100 != 0 || y % 400 == 0)

def daysInMonth (y m : Nat) : Nat :=
  match m with
  | 1 => 31 | 2 => if isLeap y then 29 else 28 | 3 => 31 | 4 => 30
  | 5 => 31 | 6 => 30 | 7 => 31 | 8 => 31
  | 9 => 30 | 10 => 31 | 11 => 30 | _ => 31

def daysBeforeMonth (y m : Nat) : Nat :=
  (match m with
  | 1 => 0 | 2 => 31 | 3 => 59 | 4 => 90 | 5 => 120 | 6 => 151
  | 7 => 181 | 8 => 212 | 9 => 243 | 10 => 273 | 11 => 304 | _ => 334)
  + (if 3 ≤ m ∧ isLeap y then 1 else 0)

/-- Day number of `y-m-d` counted from 1970-01-01 (the Unix epoch), as in
`datetime.toordinal` shifted by the epoch's ordinal. -/
def daysFromCivil (y m d : Nat) : Int :=
  (365 * (y - 1) + (y - 1) / 4 - (y - 1) / 100 + (y - 1) / 400
    + daysBeforeMonth y m + (d - 1) : Int) - 719162

/-! ### `datetime.strptime(s, "%Y-%m-%dT%H:%M:%SZ")`

CPython's `_strptime` compiles the format into a regex (with `re.IGNORECASE`)
whose field patterns are `\d\d\d\d` for `%Y`, `1[0-2]|0[1-9]|[1-9]` for `%m`,
`3[01]|[12]\d|0[1-9]|[1-9]` for `%d`, `2[0-3]|[0-1]\d|\d` for `%H`,
`[0-5]\d|\d` for `%M` and `6[0-1]|[0-5]\d|\d` for `%S`.  Because every field
is followed by a non-digit literal, the regex is equivalent to reading greedily
up to two digits and range-checking the value, which is what `read2` does.
`datetime`'s constructor then validates the day against the month length and
rejects seconds 60/61 and year 0. -/

def digitVal (c : Char) : Option Nat :=
  if '0' ≤ c ∧ c ≤ '9' then some (c.toNat - 48) else none

/-- Read one or two digits greedily (two whenever two digits are present). -/
def read2 : List Char → Option (Nat × List Char)
  | c1 :: c2 :: rest =>
    match digitVal c1, digitVal c2 with
    | some v1, some v2 => some (10 * v1 + v2, rest)
    | some v1, none => some (v1, c2 :: rest)
    | none, _ => none
  | [c1] => (digitVal c1).map (fun v => (v, []))
  | [] => none

/-- Read exactly four digits. -/
def read4 : List Char → Option (Nat × List Char)
  | c1 :: c2 :: c3 :: c4 :: rest =>
    match digitVal c1, digitVal c2, digitVal c3, digitVal c4 with
    | some v1, some v2, some v3, some v4 =>
      some (1000 * v1 + 100 * v2 + 10 * v3 + v4, rest)
    | _, _, _, _ => none
  | _ => none

def expectChar (c : Char) : List Char → Option (List Char)
  | c1 :: rest => if c1 = c then some rest else none
  | [] => none

/-- Case-insensitive literal match, since `_strptime` compiles its regex with
`re.IGNORECASE`. -/
def expectCharCI (lower upper : Char) : List Char → Option (List Char)
  | c1 :: rest => if c1 = lower ∨ c1 = upper then some rest else none
  | [] => none

/-- The six calendar fields extracted by
`datetime.strptime(s, "%Y-%m-%dT%H:%M:%SZ")`. -/
structure DT where
  year : Nat
  month : Nat
  day : Nat
  hour : Nat
  minute : Nat
  second : Nat
deriving DecidableEq

/-- `datetime.strptime(s, "%Y-%m-%dT%H:%M:%SZ")`: `none` models the
`ValueError` raised on a regex mismatch, leftover input, or an invalid
calendar value in the `datetime` constructor. -/
def strptimeIso (s : String) : Option DT := do
  let cs := s.data
  let (y, cs) ← read4 cs
  let cs ← expectChar '-' cs
  let (mo, cs) ← read2 cs
  let cs ← expectChar '-' cs
  let (d, cs) ← read2 cs
  let cs ← expectCharCI 'T' 't' cs
  let (h, cs) ← read2 cs
  let cs ← expectChar ':' cs
  let (mi, cs) ← read2 cs
  let cs ← expectChar ':' cs
  let (se, cs) ← read2 cs
  let cs ← expectCharCI 'Z' 'z' cs
  if cs = [] ∧ 1 ≤ y ∧ 1 ≤ mo ∧ mo ≤ 12 ∧ 1 ≤ d ∧ d ≤ daysInMonth y mo
      ∧ h ≤ 23 ∧ mi ≤ 59 ∧ se ≤ 59 then
    some ⟨y, mo, d, h, mi, se⟩
  else none

/-- `dt.timestamp()` for the naive datetime `dt`: CPython interprets the
fields in the process's local timezone, here a fixed offset `tz` seconds east
of UTC. -/
def epochSeconds (tz : Int) (f : DT) : Int :=
  daysFromCivil f.year f.month f.day * 86400
    + f.hour * 3600 + f.minute * 60 + f.second - tz

/-- `int(dt.timestamp() * 1000)`: exact, because the seconds value is an
integer of magnitude far below `2 ^ 53`. -/
def isoToMs (tz : Int) (s : String) : Option Int :=
  (strptimeIso s).map (fun f => epochSeconds tz f * 1000)

/-! ### The converters -/

/-- The exceptions the program can raise per entry, by site.  `valueError`
tags carry which validation message was raised. -/
inductive PyErr where
  | missingTimestamp : PyErr
  | parseError : PyErr
  | missingId : PyErr
  | missingValue : PyErr
  | missingDeviceId : PyErr
  | missingReading : PyErr
  | missingTime : PyErr
  | attributeError : PyErr
  | typeError : PyErr
  | fileNotFound : PyErr
  | jsonDecodeError : PyErr
deriving DecidableEq

/-- The unified record `{sensor, value, timestamp}` built by the converters. -/
structure UnifiedEntry where
  sensor : Json
  value : Json
  timestamp : Json

/-- `convert_data1_entry`: Format A (`data-1.json`).  Checks, in source
order: falsy `timestamp` (`ValueError "Missing timestamp"`); `strptime`
(TypeError on a non-string, `ValueError` on a parse failure); falsy `id`;
`value is None`.  A non-dict entry raises `AttributeError` at `entry.get`. -/
def convert_data1_entry (tz : Int) (entry : Json) : Except PyErr UnifiedEntry :=
  match entry with
  | .obj kvs =>
    let iso := pyGet kvs "timestamp"
    if truthy iso = false then .error .missingTimestamp
    else
      match iso with
      | .str s =>
        match isoToMs tz s with
        | none => .error .parseError
        | some ms =>
          let sid := pyGet kvs "id"
          if truthy sid = false then .error .missingId
          else
            let v := pyGet kvs "value"
            if v.isNull then .error .missingValue
            else .ok ⟨sid, v, .num ms 0⟩
      | _ => .error .typeError
  | _ => .error .attributeError

/-- `convert_data2_entry`: Format B (`data-2.json`).  Checks, in source
order: falsy `deviceId`; `reading is None`; `time is None`; passes all three
values through unchanged. -/
def convert_data2_entry (entry : Json) : Except PyErr UnifiedEntry :=
  match entry with
  | .obj kvs =>
    let did := pyGet kvs "deviceId"
    if truthy did = false then .error .missingDeviceId
    else
      let reading := pyGet kvs "reading"
      if reading.isNull then .error .missingReading
      else
        let time := pyGet kvs "time"
        if time.isNull then .error .missingTime
        else .ok ⟨did, reading, time⟩
  | _ => .error .attributeError

/-- `convert_dataset(data, converter_func)`: per-entry loop that appends the
converted entry on success and skips the entry on any exception. -/
def convert_dataset : List Json → (Json → Except PyErr UnifiedEntry) → List UnifiedEntry
  | [], _ => []
  | e :: rest, f =>
    match f e with
    | .ok u => u :: convert_dataset rest f
    | .error _ => convert_dataset rest f

/-! ### The sort stage

`result.sort(key=lambda x: x['timestamp'])` uses Python's stable Timsort,
comparing timestamps with `<`.  Numbers (including `bool`, which is an `int`
in Python) are mutually comparable; strings are comparable with strings; a
mixed or non-comparable key list raises `TypeError` (Timsort compares every
adjacent pair while detecting runs, so a mixed list always raises).  The
model sorts with a stable merge sort when all keys are numeric, or all keys
are strings, and raises `TypeError` otherwise; keys that are `None`, lists
or dicts are treated as non-comparable (Python `None`/dict keys always
raise; nested-list keys are not modelled). -/

/-- Numeric view of a JSON value as Python's `<` sees it (`True`/`False`
compare as `1`/`0`). -/
def numViewQ : Json → Option ℚ
  | .num m e => some ((m : ℚ) / (10 : ℚ) ^ e)
  | .bool b => some (if b then 1 else 0)
  | _ => none

def strView : Json → Option String
  | .str s => some s
  | _ => none

def tsKeyQ (u : UnifiedEntry) : ℚ := (numViewQ u.timestamp).getD 0

def tsKeyS (u : UnifiedEntry) : String := (strView u.timestamp).getD ""

def leNum (a b : UnifiedEntry) : Bool := tsKeyQ a ≤ tsKeyQ b

def leStr (a b : UnifiedEntry) : Bool := decide (tsKeyS a ≤ tsKeyS b)

/-- `result.sort(key=lambda x: x['timestamp'])`. -/
def sortStep (l : List UnifiedEntry) : Except PyErr (List UnifiedEntry) :=
  if l.all (fun u => (numViewQ u.timestamp).isSome) then .ok (l.mergeSort leNum)
  else if l.all (fun u => (strView u.timestamp).isSome) then .ok (l.mergeSort leStr)
  else .error .typeError

/-! ### `json.dump(data, f, indent=2)`: serialization

`json.dump` with the default `ensure_ascii=True` escapes `"` and `\`, writes
the shorthand escapes for the control characters that have one, and writes
every other character outside `0x20..0x7e` as `\uXXXX` (a surrogate pair for
characters above `0xFFFF`).  With `indent=2` each container item starts on
its own line indented two further spaces, items are separated by `,`, and
the closing bracket returns to the parent indentation. -/

def hex4 (n : Nat) : List Char :=
  [Nat.digitChar (n / 4096 % 16), Nat.digitChar (n / 256 % 16),
   Nat.digitChar (n / 16 % 16), Nat.digitChar (n % 16)]

def escChar (c : Char) : List Char :=
  if c = '"' then ['\\', '"']
  else if c = '\\' then ['\\', '\\']
  else if c = '\x08' then ['\\', 'b']
  else if c = '\x0c' then ['\\', 'f']
  else if c = '\n' then ['\\', 'n']
  else if c = '\x0d' then ['\\', 'r']
  else if c = '\t' then ['\\', 't']
  else if 0x20 ≤ c.toNat ∧ c.toNat ≤ 0x7e then [c]
  else if c.toNat < 0x10000 then '\\' :: 'u' :: hex4 c.toNat
  else
    let v := c.toNat - 0x10000
    ('\\' :: 'u' :: hex4 (0xd800 + v / 1024)) ++ ('\\' :: 'u' :: hex4 (0xdc00 + v % 1024))

def escString (s : String) : List Char :=
  '"' :: (s.data.map escChar).flatten ++ ['"']

/-- Decimal digits of `n`, most significant first; `fuel ≥ n + 1` suffices. -/
def natChars : Nat → Nat → List Char
  | 0, _ => []
  | fuel + 1, n =>
    if n < 10 then [Nat.digitChar n]
    else natChars fuel (n / 10) ++ [Nat.digitChar (n % 10)]

def natStr (n : Nat) : List Char := natChars (n + 1) n

def padZeros (cs : List Char) (len : Nat) : List Char :=
  List.replicate (len - cs.length) '0' ++ cs

/-- The digits of `n / 10 ^ e` with the decimal point inserted `e` places
from the right (zero-padded on the left as needed). -/
def fracChars (n : Nat) (e : Nat) : List Char :=
  let ds := padZeros (natStr n) (e + 1)
  ds.take (ds.length - e) ++ '.' :: ds.drop (ds.length - e)

/-- The decimal rendering of `m / 10 ^ e`, matching what Python's `repr`
prints for the ints and (decimal-sourced) floats the program handles. -/
def numChars (m : Int) (e : Nat) : List Char :=
  if e = 0 then (if m < 0 then '-' :: natStr m.natAbs else natStr m.natAbs)
  else (if m < 0 then ['-'] else []) ++ fracChars m.natAbs e

def spaces (n : Nat) : List Char := List.replicate n ' '

mutual

/-- `json.dump(j, f, indent=2)` at indentation `ind`. -/
def printJson (ind : Nat) : Json → List Char
  | .null => "null".data
  | .bool true => "true".data
  | .bool false => "false".data
  | .num m e => numChars m e
  | .str s => escString s
  | .arr [] => "[]".data
  | .arr (x :: xs) =>
    '[' :: '\n' :: spaces (ind + 2) ++ printJson (ind + 2) x
      ++ printItems (ind + 2) xs ++ '\n' :: spaces ind ++ [']']
  | .obj [] => "{}".data
  | .obj (kv :: kvs) =>
    '{' :: '\n' :: spaces (ind + 2) ++ escString kv.1 ++ ':' :: ' ' :: printJson (ind + 2) kv.2
      ++ printFields (ind + 2) kvs ++ '\n' :: spaces ind ++ ['}']

def printItems (ind : Nat) : List Json → List Char
  | [] => []
  | x :: xs => ',' :: '\n' :: spaces ind ++ printJson ind x ++ printItems ind xs

def printFields (ind : Nat) : List (String × Json) → List Char
  | [] => []
  | kv :: kvs =>
    ',' :: '\n' :: spaces ind ++ escString kv.1 ++ ':' :: ' ' :: printJson ind kv.2
      ++ printFields ind kvs

end

def jsonDump (j : Json) : String := ⟨printJson 0 j⟩

/-! ### `json.load`: parsing -/

def hexVal (c : Char) : Option Nat :=
  if '0' ≤ c ∧ c ≤ '9' then some (c.toNat - 48)
  else if 'a' ≤ c ∧ c ≤ 'f' then some (c.toNat - 87)
  else if 'A' ≤ c ∧ c ≤ 'F' then some (c.toNat - 55)
  else none

def readHex4 : List Char → Option (Nat × List Char)
  | c1 :: c2 :: c3 :: c4 :: rest =>
    match hexVal c1, hexVal c2, hexVal c3, hexVal c4 with
    | some v1, some v2, some v3, some v4 =>
      some (4096 * v1 + 256 * v2 + 16 * v3 + v4, rest)
    | _, _, _, _ => none
  | _ => none

/-- Body of a JSON string literal (after the opening quote), decoding escape
sequences.  Lone surrogate escapes are rejected (Lean characters are Unicode
scalar values; the program never produces them). -/
def parseStrChars : Nat → List Char → Option (List Char × List Char)
  | 0, _ => none
  | _ + 1, [] => none
  | fuel + 1, c :: rest =>
    if c = '"' then some ([], rest)
    else if c = '\\' then
      match rest with
      | [] => none
      | k :: r2 =>
        if k = 'u' then
          match readHex4 r2 with
          | none => none
          | some (n, r3) =>
            if n < 0xd800 ∨ 0xe000 ≤ n then
              (parseStrChars fuel r3).map (fun (cs, r) => (Char.ofNat n :: cs, r))
            else if n < 0xdc00 then
              match r3 with
              | '\\' :: 'u' :: r4 =>
                match readHex4 r4 with
                | some (n2, r5) =>
                  if 0xdc00 ≤ n2 ∧ n2 < 0xe000 then
                    (parseStrChars fuel r5).map
                      (fun (cs, r) => (Char.ofNat (0x10000 + (n - 0xd800) * 1024 + (n2 - 0xdc00)) :: cs, r))
                  else none
                | none => none
              | _ => none
            else none
        else
          match (if k = '"' then some '"' else if k = '\\' then some '\\'
                 else if k = '/' then some '/' else if k = 'b' then some '\x08'
                 else if k = 'f' then some '\x0c' else if k = 'n' then some '\n'
                 else if k = 'r' then some '\x0d' else if k = 't' then some '\t'
                 else none) with
          | some d => (parseStrChars fuel r2).map (fun (cs, r) => (d :: cs, r))
          | none => none
    else (parseStrChars fuel rest).map (fun (cs, r) => (c :: cs, r))

def readDigits : List Char → List Nat × List Char
  | [] => ([], [])
  | c :: rest =>
    match digitVal c with
    | some d =>
      let (ds, r) := readDigits rest
      (d :: ds, r)
    | none => ([], c :: rest)

def digitsToNat (ds : List Nat) : Nat := ds.foldl (fun a d => 10 * a + d) 0

def applySign (neg : Bool) (n : Nat) : Int := if neg then -(n : Int) else (n : Int)

/-- Optional exponent part of a JSON number; the mantissa/exponent pair is
adjusted so the represented value is exact. -/
def parseExpPart (neg : Bool) (ds : List Nat) (e : Nat) : List Char → Option (Json × List Char)
  | c :: rest =>
    if c = 'e' ∨ c = 'E' then
      let (eneg, r1) :=
        match rest with
        | '-' :: r => (true, r)
        | '+' :: r => (false, r)
        | _ => (false, rest)
      match readDigits r1 with
      | ([], _) => none
      | (es, r2) =>
        let p := digitsToNat es
        if eneg then some (.num (applySign neg (digitsToNat ds)) (e + p), r2)
        else some (.num (applySign neg (digitsToNat ds) * (10 : Int) ^ p) e, r2)
    else some (.num (applySign neg (digitsToNat ds)) e, c :: rest)
  | [] => some (.num (applySign neg (digitsToNat ds)) e, [])

/-- The sign-stripped part of the JSON number grammar:
`(0|[1-9][0-9]*)(\.[0-9]+)?([eE][-+]?[0-9]+)?`. -/
def parseNumTail (neg : Bool) (cs1 : List Char) : Option (Json × List Char) :=
  match readDigits cs1 with
  | ([], _) => none
  | (ds, r1) =>
    if 1 < ds.length ∧ ds.head? = some 0 then none
    else
      match r1 with
      | '.' :: r2 =>
        match readDigits r2 with
        | ([], _) => none
        | (fs, r3) => parseExpPart neg (ds ++ fs) fs.length r3
      | _ => parseExpPart neg ds 0 r1

/-- JSON number grammar `-?(0|[1-9][0-9]*)(\.[0-9]+)?([eE][-+]?[0-9]+)?`. -/
def parseNumber (cs : List Char) : Option (Json × List Char) :=
  match cs with
  | '-' :: r => parseNumTail true r
  | _ => parseNumTail false cs

def skipWs : List Char → List Char
  | [] => []
  | c :: rest =>
    if c = ' ' ∨ c = '\t' ∨ c = '\n' ∨ c = '\x0d' then skipWs rest else c :: rest

mutual

/-- One JSON value; `fuel` bounds the recursion depth and item count, and
one more than the input length always suffices. -/
def parseJson : Nat → List Char → Option (Json × List Char)
  | 0, _ => none
  | fuel + 1, cs =>
    match skipWs cs with
    | [] => none
    | c :: rest =>
      if c = 'n' then
        match rest with
        | 'u' :: 'l' :: 'l' :: r => some (.null, r)
        | _ => none
      else if c = 't' then
        match rest with
        | 'r' :: 'u' :: 'e' :: r => some (.bool true, r)
        | _ => none
      else if c = 'f' then
        match rest with
        | 'a' :: 'l' :: 's' :: 'e' :: r => some (.bool false, r)
        | _ => none
      else if c = '"' then
        (parseStrChars (rest.length + 1) rest).map (fun (cs, r) => (.str ⟨cs⟩, r))
      else if c = '[' then
        match skipWs rest with
        | ']' :: r => some (.arr [], r)
        | cs2 =>
          match parseJson fuel cs2 with
          | none => none
          | some (x, r1) =>
            match parseItems fuel r1 with
            | none => none
            | some (xs, r2) => some (.arr (x :: xs), r2)
      else if c = '{' then
        match skipWs rest with
        | '}' :: r => some (.obj [], r)
        | cs2 =>
          match parseField fuel cs2 with
          | none => none
          | some (kv, r1) =>
            match parseFields fuel r1 with
            | none => none
            | some (kvs, r2) => some (.obj (kv :: kvs), r2)
      else parseNumber (c :: rest)

/-- Items after the first in a JSON array, up to the closing bracket. -/
def parseItems : Nat → List Char → Option (List Json × List Char)
  | 0, _ => none
  | fuel + 1, cs =>
    match skipWs cs with
    | ']' :: r => some ([], r)
    | ',' :: r =>
      match parseJson fuel r with
      | none => none
      | some (x, r1) =>
        match parseItems fuel r1 with
        | none => none
        | some (xs, r2) => some (x :: xs, r2)
    | _ => none

/-- One `"key": value` member of a JSON object. -/
def parseField : Nat → List Char → Option ((String × Json) × List Char)
  | 0, _ => none
  | fuel + 1, cs =>
    match skipWs cs with
    | '"' :: rest =>
      match parseStrChars (rest.length + 1) rest with
      | none => none
      | some (k, r1) =>
        match skipWs r1 with
        | ':' :: r2 =>
          match parseJson fuel r2 with
          | none => none
          | some (v, r3) => some ((⟨k⟩, v), r3)
        | _ => none
    | _ => none

/-- Members after the first in a JSON object, up to the closing brace. -/
def parseFields : Nat → List Char → Option (List (String × Json) × List Char)
  | 0, _ => none
  | fuel + 1, cs =>
    match skipWs cs with
    | '}' :: r => some ([], r)
    | ',' :: r =>
      match parseField fuel r with
      | none => none
      | some (kv, r1) =>
        match parseFields fuel r1 with
        | none => none
        | some (kvs, r2) => some (kv :: kvs, r2)
    | _ => none

end

/-- `json.loads`: one value, then only whitespace to the end. -/
def jsonParse (s : String) : Option Json :=
  match parseJson (s.data.length + 1) s.data with
  | some (j, rest) => if skipWs rest = [] then some j else none
  | none => none

/-! ### File I/O adapters and the orchestrator -/

/-- The filesystem, mapping a path to the text content of the file there. -/
def FS : Type := String → Option String

/-- `load_json_file`: `FileNotFoundError` when the path is absent,
`json.JSONDecodeError` when the content is not valid JSON. -/
def load_json_file (fs : FS) (path : String) : Except PyErr Json :=
  match fs path with
  | none => .error .fileNotFound
  | some txt =>
    match jsonParse txt with
    | none => .error .jsonDecodeError
    | some j => .ok j

/-- `save_json_file`: writes `json.dump(data, f, indent=2)`, fully replacing
any existing file at `path`. -/
def save_json_file (fs : FS) (path : String) (data : Json) : FS :=
  fun p => if p = path then some (jsonDump data) else fs p

/-- Python `len`: defined for lists, dicts and strings; `TypeError`
otherwise. -/
def pyLen : Json → Option Nat
  | .arr xs => some xs.length
  | .obj kvs => some kvs.length
  | .str s => some s.length
  | _ => none

/-- Python iteration as `convert_dataset`'s `for` loop sees the loaded
document: a list yields its items, a dict its keys, a string its
characters. -/
def pyIterate : Json → List Json
  | .arr xs => xs
  | .obj kvs => kvs.map (fun kv => .str kv.1)
  | .str s => s.data.map (fun c => .str ⟨[c]⟩)
  | _ => []

/-- The dict literal each converter returns, with its insertion order. -/
def entryJson (u : UnifiedEntry) : Json :=
  .obj [("sensor", u.sensor), ("value", u.value), ("timestamp", u.timestamp)]

/-- Observable filesystem operations of one run. -/
inductive Ev where
  | load (path : String) : Ev
  | save (path : String) : Ev
deriving DecidableEq

structure MainResult where
  exitCode : Nat
  fs : FS
  events : List Ev

/-- `main()`: check both inputs exist (else a planned `sys.exit(1)` before
any load), load both, log both lengths, convert both datasets, concatenate,
sort by timestamp, save; any exception is caught at the top level and mapped
to exit code 1. -/
def main (tz : Int) (fs : FS) : MainResult :=
  if (fs "data-1.json").isNone then ⟨1, fs, []⟩
  else if (fs "data-2.json").isNone then ⟨1, fs, []⟩
  else
    match load_json_file fs "data-1.json" with
    | .error _ => ⟨1, fs, [.load "data-1.json"]⟩
    | .ok data1 =>
      match load_json_file fs "data-2.json" with
      | .error _ => ⟨1, fs, [.load "data-1.json", .load "data-2.json"]⟩
      | .ok data2 =>
        match pyLen data1, pyLen data2 with
        | some _, some _ =>
          let converted1 := convert_dataset (pyIterate data1) (convert_data1_entry tz)
          let converted2 := convert_dataset (pyIterate data2) convert_data2_entry
          match sortStep (converted1 ++ converted2) with
          | .ok sorted =>
            ⟨0, save_json_file fs "output.json" (.arr (sorted.map entryJson)),
              [.load "data-1.json", .load "data-2.json", .save "output.json"]⟩
          | .error _ => ⟨1, fs, [.load "data-1.json", .load "data-2.json"]⟩
        | _, _ => ⟨1, fs, [.load "data-1.json", .load "data-2.json"]⟩

/-- The strict pattern `YYYY-MM-DDTHH:MM:SSZ` exactly as the spec words it:
four-digit year, two-digit month/day/hour/minute/second, literal `T` and `Z`
separators.  Modelled from the spec to compare against the code's actual
(lenient) matching. -/
def specStrictIsoPattern (s : String) : Bool :=
  match s.data with
  | [y1, y2, y3, y4, sep1, m1, m2, sep2, d1, d2, sept, h1, h2, sep3, mi1, mi2, sep4, s1, s2, sepz] =>
    (digitVal y1).isSome && (digitVal y2).isSome && (digitVal y3).isSome && (digitVal y4).isSome
      && sep1 = '-' && (digitVal m1).isSome && (digitVal m2).isSome
      && sep2 = '-' && (digitVal d1).isSome && (digitVal d2).isSome
      && sept = 'T' && (digitVal h1).isSome && (digitVal h2).isSome
      && sep3 = ':' && (digitVal mi1).isSome && (digitVal mi2).isSome
      && sep4 = ':' && (digitVal s1).isSome && (digitVal s2).isSome
      && sepz = 'Z'
  | _ => false

/-- The docstring example entry of `convert_data1_entry`. -/
def docExampleEntry : Json :=
  .obj [("id", .str "sensor-1"), ("value", .num 235 1),
        ("timestamp", .str "2023-06-01T12:00:00Z")]

/-- Whether an entry's timestamp is exactly the integer `t` (the conforming
`num t 0` form produced by the converters on integer input). -/
def tsEqInt (t : Int) (u : UnifiedEntry) : Bool :=
  match u.timestamp with
  | .num m e => m == t && e == 0
  | _ => false

/-- The integer timestamp of a conforming entry (junk `0` otherwise). -/
def tsInt (u : UnifiedEntry) : Int :=
  match u.timestamp with
  | .num m _ => m
  | _ => 0

/-- The numeric values of a list of digit characters. -/
def digitVals (cs : List Char) : List Nat := cs.map (fun c => (digitVal c).getD 0)

/-- What may legally follow a printed JSON number so that the number parser
stops exactly there: end of input, or a character that is not a digit, not a
decimal point and not an exponent marker. -/
def numBoundary : List Char → Prop
  | [] => True
  | c :: _ => digitVal c = none ∧ c ≠ '.' ∧ c ≠ 'e' ∧ c ≠ 'E'

/-- A well-formed Unified Entry per the data model: `sensor` a string,
`value` a (decimal) number, `timestamp` an integer. -/
def WFEntry (u : UnifiedEntry) : Prop :=
  (∃ s, u.sensor = Json.str s) ∧ (∃ m e, u.value = Json.num m e)
    ∧ (∃ t : Int, u.timestamp = Json.num t 0)

/-! ## Theorems -/

theorem convert_dataset_eq_filterMap (data : List Json)
    (f : Json → Except PyErr UnifiedEntry) :
    convert_dataset data f = data.filterMap (fun e => (f e).toOption) := by
  induction data with
  | nil => rfl
  | cons e rest ih =>
    simp only [convert_dataset, List.filterMap_cons]
    cases f e <;> simp [Except.toOption, ih]

/-- C3: `convert_dataset` (a total function in the embedding: every entry
failure is absorbed) skips exactly the entries on which the converter fails,
keeps the rest in their original relative order, and returns `N - K` entries
when `K` of the `N` entries fail. -/
theorem convert_dataset_skips_failures (data : List Json)
    (f : Json → Except PyErr UnifiedEntry) :
    convert_dataset data f = data.filterMap (fun e => (f e).toOption)
      ∧ (convert_dataset data f).length
          = data.length - data.countP (fun e => !(f e).isOk) := by
  refine ⟨convert_dataset_eq_filterMap data f, ?_⟩
  induction data with
  | nil => rfl
  | cons e rest ih =>
    have hle : rest.countP (fun e => !(f e).isOk) ≤ rest.length :=
      List.countP_le_length _
    cases hfe : f e with
    | ok u =>
      have h1 : convert_dataset (e :: rest) f = u :: convert_dataset rest f := by
        simp only [convert_dataset, hfe]
      have hc : List.countP (fun e => !(f e).isOk) (e :: rest)
          = List.countP (fun e => !(f e).isOk) rest := by
        rw [List.countP_cons]
        simp [hfe, Except.isOk, Except.toBool]
      rw [h1, List.length_cons, List.length_cons, ih, hc]
      omega
    | error err =>
      have h1 : convert_dataset (e :: rest) f = convert_dataset rest f := by
        simp only [convert_dataset, hfe]
      have hc : List.countP (fun e => !(f e).isOk) (e :: rest)
          = List.countP (fun e => !(f e).isOk) rest + 1 := by
        rw [List.countP_cons]
        simp [hfe, Except.isOk, Except.toBool]
      rw [h1, List.length_cons, ih, hc]
      omega

/-- C10: `convert_dataset` is a homomorphism for list concatenation, since
each entry is converted independently. -/
theorem convert_dataset_append (f : Json → Except PyErr UnifiedEntry)
    (xs ys : List Json) :
    convert_dataset (xs ++ ys) f = convert_dataset xs f ++ convert_dataset ys f := by
  induction xs with
  | nil => rfl
  | cons e rest ih =>
    simp only [List.cons_append, convert_dataset]
    cases f e <;> simp [ih]

theorem strptimeIso_ne_empty {s : String} {f : DT} (h : strptimeIso s = some f) :
    s ≠ "" := by
  intro hs
  subst hs
  have hnone : strptimeIso "" = none := rfl
  rw [hnone] at h
  exact Option.noConfusion h

theorem isoToMs_ne_empty {tz : Int} {s : String} {ms : Int}
    (h : isoToMs tz s = some ms) : s ≠ "" := by
  intro hs
  obtain ⟨f, hf, -⟩ := Option.map_eq_some'.mp h
  exact strptimeIso_ne_empty hf hs

theorem isNull_num (m : Int) (e : Nat) : (Json.num m e).isNull = false := rfl

theorem truthy_str {s : String} (h : s ≠ "") : truthy (.str s) = true := by
  simp [truthy, h]

/-- C4: zero is a valid reading and a valid time.  A Format-A entry with
numeric value `0` converts successfully with value `0`; a Format-B entry with
`reading` `0` or `time` `0` converts successfully; and, once the earlier
checks pass, the `missing`-field `ValueError` for `value`/`reading`/`time`
fires exactly when the field is `None` (absent or JSON `null`). -/
theorem zero_values_are_valid (tz : Int) :
    (∀ kvs ts ms e0, pyGet kvs "timestamp" = .str ts → isoToMs tz ts = some ms →
      truthy (pyGet kvs "id") = true → pyGet kvs "value" = .num 0 e0 →
      convert_data1_entry tz (.obj kvs) = .ok ⟨pyGet kvs "id", .num 0 e0, .num ms 0⟩)
    ∧ (∀ kvs e0, truthy (pyGet kvs "deviceId") = true →
      pyGet kvs "reading" = .num 0 e0 → (pyGet kvs "time").isNull = false →
      convert_data2_entry (.obj kvs)
        = .ok ⟨pyGet kvs "deviceId", .num 0 e0, pyGet kvs "time"⟩)
    ∧ (∀ kvs e0, truthy (pyGet kvs "deviceId") = true →
      (pyGet kvs "reading").isNull = false → pyGet kvs "time" = .num 0 e0 →
      convert_data2_entry (.obj kvs)
        = .ok ⟨pyGet kvs "deviceId", pyGet kvs "reading", .num 0 e0⟩)
    ∧ (∀ kvs ts ms, pyGet kvs "timestamp" = .str ts → isoToMs tz ts = some ms →
      truthy (pyGet kvs "id") = true →
      (convert_data1_entry tz (.obj kvs) = .error .missingValue
        ↔ (pyGet kvs "value").isNull = true))
    ∧ (∀ kvs, truthy (pyGet kvs "deviceId") = true →
      ((convert_data2_entry (.obj kvs) = .error .missingReading
          ↔ (pyGet kvs "reading").isNull = true)
        ∧ ((pyGet kvs "reading").isNull = false →
          (convert_data2_entry (.obj kvs) = .error .missingTime
            ↔ (pyGet kvs "time").isNull = true)))) := by
  refine ⟨?_, ?_, ?_, ?_, ?_⟩
  · intro kvs ts ms e0 hts hms hid hv
    simp only [convert_data1_entry, hts, truthy_str (isoToMs_ne_empty hms), hms,
      hid, hv, isNull_num]
    rfl
  · intro kvs e0 hdid hr ht
    simp only [convert_data2_entry, hdid, hr, isNull_num, ht]
    rfl
  · intro kvs e0 hdid hr ht
    simp only [convert_data2_entry, hdid, hr, ht, isNull_num]
    rfl
  · intro kvs ts ms hts hms hid
    cases hv : (pyGet kvs "value").isNull with
    | false =>
      have hok : convert_data1_entry tz (.obj kvs)
          = .ok ⟨pyGet kvs "id", pyGet kvs "value", .num ms 0⟩ := by
        simp only [convert_data1_entry, hts, truthy_str (isoToMs_ne_empty hms), hms,
          hid, hv]
        rfl
      rw [hok]
      simp [hv]
    | true =>
      have herr : convert_data1_entry tz (.obj kvs) = .error .missingValue := by
        simp only [convert_data1_entry, hts, truthy_str (isoToMs_ne_empty hms), hms,
          hid, hv]
        rfl
      rw [herr]
      simp [hv]
  · intro kvs hdid
    refine ⟨?_, ?_⟩
    · cases hr : (pyGet kvs "reading").isNull with
      | true =>
        have herr : convert_data2_entry (.obj kvs) = .error .missingReading := by
          simp only [convert_data2_entry, hdid, hr]
          rfl
        rw [herr]
        simp [hr]
      | false =>
        have hshape : convert_data2_entry (.obj kvs) ≠ .error .missingReading := by
          simp only [convert_data2_entry, hdid, hr]
          cases ht : (pyGet kvs "time").isNull <;> simp [ht]
        simp [hshape, hr]
    · intro hr
      cases ht : (pyGet kvs "time").isNull with
      | true =>
        have herr : convert_data2_entry (.obj kvs) = .error .missingTime := by
          simp only [convert_data2_entry, hdid, hr, ht]
          rfl
        rw [herr]
        simp [ht]
      | false =>
        have hok : convert_data2_entry (.obj kvs)
            = .ok ⟨pyGet kvs "deviceId", pyGet kvs "reading", pyGet kvs "time"⟩ := by
          simp only [convert_data2_entry, hdid, hr, ht]
          rfl
        rw [hok]
        simp [ht]

/-- Witness for C4 at concrete entries with zero value, reading and time. -/
theorem zero_values_are_valid_witness :
    convert_data1_entry 0 (.obj [("id", .str "s1"), ("value", .num 0 0),
        ("timestamp", .str "2023-06-01T12:00:00Z")])
      = .ok ⟨.str "s1", .num 0 0, .num 1685620800000 0⟩
    ∧ convert_data2_entry (.obj [("deviceId", .str "d1"), ("reading", .num 0 0),
        ("time", .num 0 0)])
      = .ok ⟨.str "d1", .num 0 0, .num 0 0⟩
    ∧ convert_data2_entry (.obj [("deviceId", .str "d1"), ("reading", .num 1 0)])
        = .error .missingTime := by
  refine ⟨?_, ?_, ?_⟩
  · exact (zero_values_are_valid 0).1 _ "2023-06-01T12:00:00Z" 1685620800000 0
      rfl rfl rfl rfl
  · exact (zero_values_are_valid 0).2.1 _ 0 rfl rfl rfl
  · exact (((zero_values_are_valid 0).2.2.2.2
      [("deviceId", .str "d1"), ("reading", .num 1 0)] rfl).2 rfl).mpr rfl

/-- C5 counterexample: `"2023-6-01T12:00:00Z"` does not match the strict
`YYYY-MM-DDTHH:MM:SSZ` pattern (one-digit month), yet `convert_data1_entry`
parses it successfully — CPython's `strptime` accepts non-zero-padded
fields — so no parse failure is raised. -/
theorem strict_pattern_counterexample :
    specStrictIsoPattern "2023-6-01T12:00:00Z" = false
    ∧ convert_data1_entry 0
        (.obj [("id", .str "s"), ("value", .num 1 0),
               ("timestamp", .str "2023-6-01T12:00:00Z")])
      = .ok ⟨.str "s", .num 1 0, .num 1685620800000 0⟩ := by
  exact ⟨rfl, rfl⟩

/-- C5 (amended): `convert_data1_entry` checks a dict entry in this exact
order, failing at the first violated condition: (1) falsy `timestamp` →
"missing timestamp"; (2) `timestamp` present but not parseable by
`strptime`'s lenient `YYYY-MM-DDTHH:MM:SSZ` match (fields may have one or
two digits, `T`/`Z` case-insensitive) or not a valid calendar date/time →
parse failure; (3) falsy `id` → "missing sensor ID"; (4) `value` absent or
`null` → "missing sensor value". -/
theorem convert_data1_entry_check_order (tz : Int) (kvs : List (String × Json)) :
    (truthy (pyGet kvs "timestamp") = false →
      convert_data1_entry tz (.obj kvs) = .error .missingTimestamp)
    ∧ (∀ s, pyGet kvs "timestamp" = .str s → truthy (.str s) = true →
      isoToMs tz s = none →
      convert_data1_entry tz (.obj kvs) = .error .parseError)
    ∧ (∀ s ms, pyGet kvs "timestamp" = .str s → isoToMs tz s = some ms →
      truthy (pyGet kvs "id") = false →
      convert_data1_entry tz (.obj kvs) = .error .missingId)
    ∧ (∀ s ms, pyGet kvs "timestamp" = .str s → isoToMs tz s = some ms →
      truthy (pyGet kvs "id") = true → (pyGet kvs "value").isNull = true →
      convert_data1_entry tz (.obj kvs) = .error .missingValue) := by
  refine ⟨?_, ?_, ?_, ?_⟩
  · intro h
    simp only [convert_data1_entry, h]
    rfl
  · intro s hts htr hparse
    simp only [convert_data1_entry, hts, htr, hparse]
    rfl
  · intro s ms hts hms hid
    simp only [convert_data1_entry, hts, truthy_str (isoToMs_ne_empty hms), hms, hid]
    rfl
  · intro s ms hts hms hid hv
    simp only [convert_data1_entry, hts, truthy_str (isoToMs_ne_empty hms), hms,
      hid, hv]
    rfl

/-- Witness for the C5 order theorem at four concrete entries, one per
check. -/
theorem convert_data1_entry_check_order_witness :
    convert_data1_entry 0 (.obj [("id", .str "x")]) = .error .missingTimestamp
    ∧ convert_data1_entry 0 (.obj [("timestamp", .str "not-a-date"),
        ("id", .str "x"), ("value", .num 1 0)]) = .error .parseError
    ∧ convert_data1_entry 0 (.obj [("timestamp", .str "2023-06-01T12:00:00Z")])
        = .error .missingId
    ∧ convert_data1_entry 0 (.obj [("timestamp", .str "2023-06-01T12:00:00Z"),
        ("id", .str "x")]) = .error .missingValue := by
  refine ⟨?_, ?_, ?_, ?_⟩
  · exact (convert_data1_entry_check_order 0 _).1 rfl
  · exact (convert_data1_entry_check_order 0 _).2.1 "not-a-date" rfl rfl rfl
  · exact (convert_data1_entry_check_order 0 _).2.2.1 "2023-06-01T12:00:00Z"
      1685620800000 rfl rfl rfl
  · exact (convert_data1_entry_check_order 0 _).2.2.2 "2023-06-01T12:00:00Z"
      1685620800000 rfl rfl rfl rfl

/-- C6 counterexample: an entry whose `deviceId` is the empty string — and
whose three fields are all non-null — is rejected with "missing deviceId",
because the code tests truthiness, not nullness. -/
theorem convert_data2_entry_nonnull_counterexample :
    (pyGet [("deviceId", Json.str ""), ("reading", .num 0 0), ("time", .num 0 0)]
        "deviceId").isNull = false
    ∧ (pyGet [("deviceId", Json.str ""), ("reading", .num 0 0), ("time", .num 0 0)]
        "reading").isNull = false
    ∧ (pyGet [("deviceId", Json.str ""), ("reading", .num 0 0), ("time", .num 0 0)]
        "time").isNull = false
    ∧ convert_data2_entry
        (.obj [("deviceId", Json.str ""), ("reading", .num 0 0), ("time", .num 0 0)])
      = .error .missingDeviceId := by
  exact ⟨rfl, rfl, rfl, rfl⟩

/-- C6 (amended): for a dict entry with truthy (non-empty, non-zero)
`deviceId` and non-null `reading` and `time`, `convert_data2_entry` returns
exactly `{sensor: deviceId, value: reading, timestamp: time}` with all three
values passed through unmodified, checking the fields in the order
`deviceId`, `reading`, `time`. -/
theorem convert_data2_entry_pass_through (kvs : List (String × Json)) :
    (truthy (pyGet kvs "deviceId") = false →
      convert_data2_entry (.obj kvs) = .error .missingDeviceId)
    ∧ (truthy (pyGet kvs "deviceId") = true → (pyGet kvs "reading").isNull = true →
      convert_data2_entry (.obj kvs) = .error .missingReading)
    ∧ (truthy (pyGet kvs "deviceId") = true → (pyGet kvs "reading").isNull = false →
      (pyGet kvs "time").isNull = true →
      convert_data2_entry (.obj kvs) = .error .missingTime)
    ∧ (truthy (pyGet kvs "deviceId") = true → (pyGet kvs "reading").isNull = false →
      (pyGet kvs "time").isNull = false →
      convert_data2_entry (.obj kvs)
        = .ok ⟨pyGet kvs "deviceId", pyGet kvs "reading", pyGet kvs "time"⟩) := by
  refine ⟨?_, ?_, ?_, ?_⟩
  · intro h
    simp only [convert_data2_entry, h]
    rfl
  · intro hdid hr
    simp only [convert_data2_entry, hdid, hr]
    rfl
  · intro hdid hr ht
    simp only [convert_data2_entry, hdid, hr, ht]
    rfl
  · intro hdid hr ht
    simp only [convert_data2_entry, hdid, hr, ht]
    rfl

/-- Witness for the C6 pass-through theorem at the spec's example entry. -/
theorem convert_data2_entry_pass_through_witness :
    convert_data2_entry (.obj [("deviceId", .str "device-2"),
        ("reading", .num 457 1), ("time", .num 1685624400000 0)])
      = .ok ⟨.str "device-2", .num 457 1, .num 1685624400000 0⟩
    ∧ convert_data2_entry (.obj [("deviceId", .bool false),
        ("reading", .num 1 0), ("time", .num 1 0)]) = .error .missingDeviceId := by
  refine ⟨?_, ?_⟩
  · exact (convert_data2_entry_pass_through _).2.2.2 rfl rfl rfl
  · exact (convert_data2_entry_pass_through _).1 rfl

/-- C1: the docstring's own example entry converts to the documented UTC
epoch value `1685620800000` only when the process's local timezone is UTC
(`tz = 0`); with the local timezone two hours east of UTC (for example
`Europe/Paris` in June), `datetime.strptime(...).timestamp()` interprets the
naive datetime in local time and the same entry yields `1685613600000`. -/
theorem convert_data1_entry_depends_on_local_timezone :
    convert_data1_entry 0 docExampleEntry
      = .ok ⟨.str "sensor-1", .num 235 1, .num 1685620800000 0⟩
    ∧ convert_data1_entry 7200 docExampleEntry
      = .ok ⟨.str "sensor-1", .num 235 1, .num 1685613600000 0⟩
    ∧ (1685613600000 : Int) ≠ 1685620800000 := by
  exact ⟨rfl, rfl, by decide⟩

/-- C7: when either input file is missing, `main` performs the planned
`sys.exit(1)`: exit code 1, no load or save event, and the filesystem — in
particular any existing `output.json` — unchanged. -/
theorem main_missing_input (tz : Int) (fs : FS)
    (h : fs "data-1.json" = none ∨ fs "data-2.json" = none) :
    main tz fs = ⟨1, fs, []⟩ := by
  rcases h with h | h
  · simp [main, h]
  · cases h1 : fs "data-1.json" with
    | none => simp [main, h1]
    | some t => simp [main, h1, h]

/-- Witness for C7 on an empty filesystem. -/
theorem main_missing_input_witness :
    main 0 (fun _ => none) = ⟨1, fun _ => none, []⟩ :=
  main_missing_input 0 (fun _ => none) (Or.inl rfl)

theorem leNum_trans : ∀ a b c : UnifiedEntry, leNum a b → leNum b c → leNum a c := by
  intro a b c h1 h2
  simp only [leNum, decide_eq_true_eq] at *
  exact le_trans h1 h2

theorem leNum_total : ∀ a b : UnifiedEntry, leNum a b || leNum b a := by
  intro a b
  simp only [leNum, Bool.or_eq_true, decide_eq_true_eq]
  exact le_total _ _

/-- A stable sort leaves the relative order of the elements of each
equivalence class of the comparison untouched: filtering the sorted list by
any predicate whose satisfying elements are pairwise `le`-equivalent gives
the same list as filtering the input. -/
theorem mergeSort_filter_stable {α : Type} (le : α → α → Bool)
    (htrans : ∀ a b c : α, le a b → le b c → le a c)
    (htotal : ∀ a b : α, le a b || le b a)
    (p : α → Bool) (hp : ∀ a b : α, p a = true → p b = true → le a b = true)
    (l : List α) :
    (l.mergeSort le).filter p = l.filter p := by
  have hME : ((l.enum.mergeSort (List.enumLE le)).map (·.2)) = l.mergeSort le :=
    List.mergeSort_enum
  rw [← hME, List.filter_map]
  set M := l.enum.mergeSort (List.enumLE le) with hM
  have hperm : M.Perm l.enum := List.mergeSort_perm _ _
  have hfperm : (M.filter (p ∘ (·.2))).Perm (l.enum.filter (p ∘ (·.2))) :=
    hperm.filter _
  have hsorted : M.Pairwise (fun a b => List.enumLE le a b) :=
    @List.sorted_mergeSort _ (List.enumLE le)
      (fun a b c => List.enumLE_trans htrans a b c)
      (fun a b => List.enumLE_total htotal a b) l.enum
  have hmemp : ∀ x ∈ M.filter (p ∘ (·.2)), p x.2 = true := by
    intro x hx
    simpa using (List.mem_filter.mp hx).2
  have hpair_le : (M.filter (p ∘ (·.2))).Pairwise (fun a b => a.1 ≤ b.1) := by
    refine (hsorted.filter _).imp_of_mem ?_
    intro a b ha hb hR
    have hab := hp a.2 b.2 (hmemp a ha) (hmemp b hb)
    have hba := hp b.2 a.2 (hmemp b hb) (hmemp a ha)
    simpa [List.enumLE, hab, hba] using hR
  have hfst : (M.map Prod.fst).Nodup := by
    have hpm : (M.map Prod.fst).Perm (l.enum.map Prod.fst) := hperm.map _
    rw [hpm.nodup_iff, List.enum_map_fst]
    exact List.nodup_range _
  have hnodup : (M.filter (p ∘ (·.2))).Pairwise (fun a b => a.1 ≠ b.1) := by
    have hsub : List.Sublist ((M.filter (p ∘ (·.2))).map Prod.fst) (M.map Prod.fst) :=
      (List.filter_sublist _).map _
    exact List.pairwise_map.mp (hfst.sublist hsub)
  have hlt1 : (M.filter (p ∘ (·.2))).Pairwise (fun a b => a.1 < b.1) :=
    (hpair_le.and hnodup).imp (fun h => Nat.lt_of_le_of_ne h.1 h.2)
  have henum : (l.enum).Pairwise (fun a b : Nat × α => a.1 < b.1) := by
    have hr := List.pairwise_lt_range l.length
    rw [← List.enum_map_fst] at hr
    exact List.pairwise_map.mp hr
  have hlt2 : ((l.enum).filter (p ∘ (·.2))).Pairwise (fun a b => a.1 < b.1) :=
    henum.filter _
  haveI : IsAntisymm (Nat × α) (fun a b => a.1 < b.1) :=
    ⟨fun a b h1 h2 => (Nat.lt_asymm h1 h2).elim⟩
  have heq : M.filter (p ∘ (·.2)) = (l.enum).filter (p ∘ (·.2)) :=
    List.eq_of_perm_of_sorted hfperm hlt1 hlt2
  rw [heq, ← List.filter_map, List.enum_map_snd]

theorem tsEqInt_iff {t : Int} {u : UnifiedEntry} :
    tsEqInt t u = true ↔ u.timestamp = .num t 0 := by
  cases u with
  | mk s v ts => cases ts <;> simp [tsEqInt]

/-- C2: on converted entries with integer timestamps (the form both
converters produce from conforming input), the combined result is exactly
the concatenation of the two converted datasets stably sorted ascending by
`timestamp`: it is a permutation of the concatenation, sorted by the
timestamp key, and for every timestamp value the entries carrying it appear
in exactly their concatenation order (Format-A-converted entries before
Format-B-converted ones, each group in original order). -/
theorem merged_result_stably_sorted (c1 c2 : List UnifiedEntry)
    (hts : ∀ u ∈ c1 ++ c2, ∃ t : Int, u.timestamp = .num t 0) :
    ∃ out, sortStep (c1 ++ c2) = .ok out
      ∧ out.Perm (c1 ++ c2)
      ∧ out.Pairwise (fun a b => tsInt a ≤ tsInt b)
      ∧ ∀ t : Int, out.filter (tsEqInt t) = (c1 ++ c2).filter (tsEqInt t) := by
  have hall : (c1 ++ c2).all (fun u => (numViewQ u.timestamp).isSome) = true := by
    rw [List.all_eq_true]
    intro u hu
    obtain ⟨t, ht⟩ := hts u hu
    simp [numViewQ, ht]
  refine ⟨(c1 ++ c2).mergeSort leNum, ?_, List.mergeSort_perm _ _, ?_, ?_⟩
  · simp [sortStep, hall]
  · have hs : ((c1 ++ c2).mergeSort leNum).Pairwise (fun a b => leNum a b) :=
      List.sorted_mergeSort leNum_trans leNum_total _
    refine hs.imp_of_mem ?_
    intro a b ha hb hR
    obtain ⟨ta, hta⟩ := hts a (List.mem_mergeSort.mp ha)
    obtain ⟨tb, htb⟩ := hts b (List.mem_mergeSort.mp hb)
    have hka : tsKeyQ a = (ta : ℚ) := by simp [tsKeyQ, numViewQ, hta]
    have hkb : tsKeyQ b = (tb : ℚ) := by simp [tsKeyQ, numViewQ, htb]
    simp only [leNum, hka, hkb, decide_eq_true_eq] at hR
    simp only [tsInt, hta, htb]
    exact_mod_cast hR
  · intro t
    refine mergeSort_filter_stable leNum leNum_trans leNum_total (tsEqInt t) ?_ _
    intro a b hpa hpb
    have hta := tsEqInt_iff.mp hpa
    have htb := tsEqInt_iff.mp hpb
    simp [leNum, tsKeyQ, numViewQ, hta, htb]

/-- Witness for C2 on concrete converted entries with a timestamp tie. -/
theorem merged_result_stably_sorted_witness :
    ∃ out,
      sortStep (([⟨.str "a", .num 1 0, .num 5 0⟩] : List UnifiedEntry)
          ++ ([⟨.str "b", .num 2 0, .num 5 0⟩,
               ⟨.str "c", .num 3 0, .num 3 0⟩] : List UnifiedEntry))
        = .ok out
      ∧ out.Perm (([⟨.str "a", .num 1 0, .num 5 0⟩] : List UnifiedEntry)
          ++ ([⟨.str "b", .num 2 0, .num 5 0⟩,
               ⟨.str "c", .num 3 0, .num 3 0⟩] : List UnifiedEntry))
      ∧ out.Pairwise (fun a b => tsInt a ≤ tsInt b)
      ∧ ∀ t : Int,
          out.filter (tsEqInt t)
            = (([⟨.str "a", .num 1 0, .num 5 0⟩] : List UnifiedEntry)
                ++ ([⟨.str "b", .num 2 0, .num 5 0⟩,
                     ⟨.str "c", .num 3 0, .num 3 0⟩] : List UnifiedEntry)).filter
              (tsEqInt t) := by
  refine merged_result_stably_sorted _ _ ?_
  intro u hu
  simp only [List.cons_append, List.nil_append, List.mem_cons,
    List.not_mem_nil, or_false] at hu
  rcases hu with h | h | h <;> subst h
  · exact ⟨5, rfl⟩
  · exact ⟨5, rfl⟩
  · exact ⟨3, rfl⟩

theorem truthy_not_null {x : Json} (h : truthy x = true) : x.isNull = false := by
  cases x <;> simp_all [truthy, Json.isNull]

theorem mem_convert_dataset {u : UnifiedEntry} {data : List Json}
    {f : Json → Except PyErr UnifiedEntry} (h : u ∈ convert_dataset data f) :
    ∃ e ∈ data, f e = .ok u := by
  rw [convert_dataset_eq_filterMap] at h
  obtain ⟨e, he, hfe⟩ := List.mem_filterMap.mp h
  refine ⟨e, he, ?_⟩
  cases hfe2 : f e with
  | ok v =>
    rw [hfe2] at hfe
    simp [Except.toOption] at hfe
    rw [hfe]
  | error err =>
    rw [hfe2] at hfe
    simp [Except.toOption] at hfe

theorem convert_data1_entry_ok {tz : Int} {e : Json} {u : UnifiedEntry}
    (h : convert_data1_entry tz e = .ok u) :
    ∃ kvs s f, e = .obj kvs
      ∧ pyGet kvs "timestamp" = .str s
      ∧ strptimeIso s = some f
      ∧ u.sensor = pyGet kvs "id"
      ∧ truthy u.sensor = true
      ∧ u.value = pyGet kvs "value"
      ∧ u.value.isNull = false
      ∧ u.timestamp = .num (epochSeconds tz f * 1000) 0 := by
  cases e with
  | obj kvs =>
    simp only [convert_data1_entry] at h
    split at h
    · exact absurd h (by simp)
    · split at h
      · rename_i s hiso
        cases hms : isoToMs tz s with
        | none => simp only [hms] at h; exact absurd h (by simp)
        | some ms =>
          simp only [hms] at h
          obtain ⟨f, hf, hfe⟩ := Option.map_eq_some'.mp hms
          by_cases hid : truthy (pyGet kvs "id") = false
          · rw [if_pos hid] at h; exact absurd h (by simp)
          · rw [if_neg hid] at h
            by_cases hv : (pyGet kvs "value").isNull = true
            · rw [if_pos hv] at h; exact absurd h (by simp)
            · rw [if_neg hv] at h
              cases Except.ok.inj h
              simp only [Bool.not_eq_false] at hid
              simp only [Bool.not_eq_true] at hv
              refine ⟨kvs, s, f, rfl, hiso, hf, rfl, hid, rfl, hv, ?_⟩
              rw [hfe]
      all_goals exact absurd h (by simp)
  | null => exact absurd h (by simp [convert_data1_entry])
  | bool b => exact absurd h (by simp [convert_data1_entry])
  | num m em => exact absurd h (by simp [convert_data1_entry])
  | str s => exact absurd h (by simp [convert_data1_entry])
  | arr items => exact absurd h (by simp [convert_data1_entry])

theorem convert_data2_entry_ok {e : Json} {u : UnifiedEntry}
    (h : convert_data2_entry e = .ok u) :
    ∃ kvs, e = .obj kvs
      ∧ u.sensor = pyGet kvs "deviceId"
      ∧ truthy u.sensor = true
      ∧ u.value = pyGet kvs "reading"
      ∧ u.value.isNull = false
      ∧ u.timestamp = pyGet kvs "time"
      ∧ u.timestamp.isNull = false := by
  cases e with
  | obj kvs =>
    simp only [convert_data2_entry] at h
    by_cases hdid : truthy (pyGet kvs "deviceId") = false
    · rw [if_pos hdid] at h; exact absurd h (by simp)
    · rw [if_neg hdid] at h
      by_cases hr : (pyGet kvs "reading").isNull = true
      · rw [if_pos hr] at h; exact absurd h (by simp)
      · rw [if_neg hr] at h
        by_cases ht : (pyGet kvs "time").isNull = true
        · rw [if_pos ht] at h; exact absurd h (by simp)
        · rw [if_neg ht] at h
          cases Except.ok.inj h
          simp only [Bool.not_eq_false] at hdid
          simp only [Bool.not_eq_true] at hr ht
          exact ⟨kvs, rfl, rfl, hdid, rfl, hr, rfl, ht⟩
  | null => exact absurd h (by simp [convert_data2_entry])
  | bool b => exact absurd h (by simp [convert_data2_entry])
  | num m em => exact absurd h (by simp [convert_data2_entry])
  | str s => exact absurd h (by simp [convert_data2_entry])
  | arr items => exact absurd h (by simp [convert_data2_entry])

/-- C9: with conforming inputs — Format-A timestamps denoting post-epoch
calendar dates (in a UTC-configured process, `tz = 0`) and Format-B `time`
fields that are non-negative integers when present — every entry of the
final combined, sorted output is the three-key mapping
`{sensor, value, timestamp}` with every field non-null and `timestamp` a
non-negative integer; the invariant is established by both converters on
success and preserved by concatenation and sorting. -/
theorem pipeline_output_invariant (d1 d2 : List Json)
    (hA : ∀ kvs s f, Json.obj kvs ∈ d1 → pyGet kvs "timestamp" = .str s →
      strptimeIso s = some f → 0 ≤ epochSeconds 0 f)
    (hB : ∀ kvs, Json.obj kvs ∈ d2 →
      (pyGet kvs "time").isNull = true ∨ ∃ t : Nat, pyGet kvs "time" = .num t 0) :
    ∃ out,
      sortStep (convert_dataset d1 (convert_data1_entry 0)
          ++ convert_dataset d2 convert_data2_entry) = .ok out
      ∧ ∀ u ∈ out,
          entryJson u = .obj [("sensor", u.sensor), ("value", u.value),
            ("timestamp", u.timestamp)]
          ∧ truthy u.sensor = true
          ∧ u.sensor.isNull = false
          ∧ u.value.isNull = false
          ∧ ∃ t : Nat, u.timestamp = .num t 0 := by
  have hshape : ∀ u ∈ convert_dataset d1 (convert_data1_entry 0)
      ++ convert_dataset d2 convert_data2_entry,
      truthy u.sensor = true ∧ u.value.isNull = false
        ∧ ∃ t : Nat, u.timestamp = .num t 0 := by
    intro u hu
    rcases List.mem_append.mp hu with hu1 | hu2
    · obtain ⟨e, he, hfe⟩ := mem_convert_dataset hu1
      obtain ⟨kvs, s, f, rfl, hts, hf, hsens, htr, hval, hvn, hT⟩ :=
        convert_data1_entry_ok hfe
      refine ⟨htr, hvn, ⟨(epochSeconds 0 f * 1000).toNat, ?_⟩⟩
      have h0 : 0 ≤ epochSeconds 0 f := hA kvs s f he hts hf
      rw [hT]
      congr 1
      omega
    · obtain ⟨e, he, hfe⟩ := mem_convert_dataset hu2
      obtain ⟨kvs, rfl, hsens, htr, hval, hvn, hT, hTn⟩ := convert_data2_entry_ok hfe
      rcases hB kvs he with hnull | ⟨t, ht⟩
      · rw [hT] at hTn
        rw [hnull] at hTn
        exact absurd hTn (by simp)
      · exact ⟨htr, hvn, ⟨t, by rw [hT, ht]⟩⟩
  have hall : (convert_dataset d1 (convert_data1_entry 0)
      ++ convert_dataset d2 convert_data2_entry).all
        (fun u => (numViewQ u.timestamp).isSome) = true := by
    rw [List.all_eq_true]
    intro u hu
    obtain ⟨-, -, t, ht⟩ := hshape u hu
    simp [numViewQ, ht]
  refine ⟨(convert_dataset d1 (convert_data1_entry 0)
      ++ convert_dataset d2 convert_data2_entry).mergeSort leNum, ?_, ?_⟩
  · simp [sortStep, hall]
  · intro u hu
    obtain ⟨htr, hvn, t, ht⟩ := hshape u (List.mem_mergeSort.mp hu)
    exact ⟨rfl, htr, truthy_not_null htr, hvn, t, ht⟩

/-- Witness for C9 at the spec's example input pair. -/
theorem pipeline_output_invariant_witness :
    ∃ out,
      sortStep (convert_dataset [docExampleEntry] (convert_data1_entry 0)
          ++ convert_dataset [Json.obj [("deviceId", .str "device-2"),
              ("reading", .num 457 1), ("time", .num 1685624400000 0)]]
            convert_data2_entry) = .ok out
      ∧ ∀ u ∈ out,
          entryJson u = .obj [("sensor", u.sensor), ("value", u.value),
            ("timestamp", u.timestamp)]
          ∧ truthy u.sensor = true
          ∧ u.sensor.isNull = false
          ∧ u.value.isNull = false
          ∧ ∃ t : Nat, u.timestamp = .num t 0 := by
  refine pipeline_output_invariant _ _ ?_ ?_
  · intro kvs s f hmem hts hf
    simp only [List.mem_singleton] at hmem
    have hkvs : kvs = [("id", Json.str "sensor-1"), ("value", .num 235 1),
        ("timestamp", .str "2023-06-01T12:00:00Z")] := by
      simpa [docExampleEntry] using hmem
    subst hkvs
    have hs : s = "2023-06-01T12:00:00Z" := by
      have h2 : Json.str "2023-06-01T12:00:00Z" = Json.str s := by
        rw [← hts]
        rfl
      exact (Json.str.inj h2).symm
    subst hs
    have h3 : strptimeIso "2023-06-01T12:00:00Z" = some ⟨2023, 6, 1, 12, 0, 0⟩ := rfl
    rw [h3] at hf
    cases Option.some.inj hf
    decide
  · intro kvs hmem
    simp only [List.mem_singleton] at hmem
    have hkvs : kvs = [("deviceId", Json.str "device-2"), ("reading", .num 457 1),
        ("time", .num 1685624400000 0)] := by
      simpa using hmem
    subst hkvs
    right
    exact ⟨1685624400000, rfl⟩

theorem digitVal_digitChar {d : Nat} (h : d < 10) :
    digitVal (Nat.digitChar d) = some d := by
  interval_cases d <;> rfl

theorem digitVal_isSome_ne_dot {c : Char} (h : (digitVal c).isSome) :
    c ≠ '-' ∧ c ≠ '.' ∧ c ≠ 'e' ∧ c ≠ 'E' ∧ c ≠ '"' := by
  refine ⟨?_, ?_, ?_, ?_, ?_⟩ <;> rintro rfl <;> simp [digitVal] at h

theorem readDigits_of_digits (ds : List Char) (rest : List Char)
    (hds : ∀ c ∈ ds, (digitVal c).isSome)
    (hrest : ∀ c rs, rest = c :: rs → digitVal c = none) :
    readDigits (ds ++ rest) = (digitVals ds, rest) := by
  induction ds with
  | nil =>
    cases rest with
    | nil => rfl
    | cons c rs =>
      simp only [List.nil_append, readDigits, hrest c rs rfl]
      rfl
  | cons c ds' ih =>
    have hc := hds c (by simp)
    obtain ⟨d, hd⟩ := Option.isSome_iff_exists.mp hc
    have ihh := ih (fun x hx => hds x (by simp [hx]))
    simp [List.cons_append, readDigits, hd, ihh, digitVals]

theorem digitsToNat_append (ds : List Nat) (d : Nat) :
    digitsToNat (ds ++ [d]) = 10 * digitsToNat ds + d := by
  simp [digitsToNat, List.foldl_append]

theorem digitsToNat_replicate_zero (k : Nat) (ds : List Nat) :
    digitsToNat (List.replicate k 0 ++ ds) = digitsToNat ds := by
  induction k with
  | zero => rfl
  | succ k ih =>
    simpa [List.replicate_succ, digitsToNat] using ih

/-- Everything `natChars` guarantees, for sufficient fuel: the digits are
digit characters, their value is `n`, the list is nonempty, and a leading
zero digit occurs only for `n = 0` (whose rendering is the single digit
`0`). -/
theorem natChars_spec : ∀ fuel n, n < fuel →
    (∀ c ∈ natChars fuel n, (digitVal c).isSome)
      ∧ digitsToNat (digitVals (natChars fuel n)) = n
      ∧ natChars fuel n ≠ []
      ∧ ((digitVals (natChars fuel n)).head? = some 0 → n = 0) := by
  intro fuel
  induction fuel with
  | zero => omega
  | succ fuel ih =>
    intro n hn
    by_cases h10 : n < 10
    · rw [natChars, if_pos h10]
      refine ⟨?_, ?_, by simp, ?_⟩
      · intro c hc
        simp only [List.mem_singleton] at hc
        subst hc
        simp [digitVal_digitChar h10]
      · simp [digitVals, digitVal_digitChar h10, digitsToNat]
      · simp [digitVals, digitVal_digitChar h10]
    · rw [natChars, if_neg h10]
      have hrec : n / 10 < fuel := by omega
      obtain ⟨ihall, ihval, ihne, ihhead⟩ := ih (n / 10) hrec
      have hmod : n % 10 < 10 := Nat.mod_lt _ (by omega)
      refine ⟨?_, ?_, by simp [ihne], ?_⟩
      · intro c hc
        rcases List.mem_append.mp hc with h | h
        · exact ihall c h
        · simp only [List.mem_singleton] at h
          subst h
          simp [digitVal_digitChar hmod]
      · rw [digitVals, List.map_append, ← digitVals]
        simp only [List.map_cons, List.map_nil, digitVal_digitChar hmod,
          Option.getD_some]
        rw [digitsToNat_append, ihval]
        omega
      · intro hhead
        rw [digitVals, List.map_append, ← digitVals] at hhead
        rw [List.head?_append_of_ne_nil] at hhead
        · have := ihhead hhead
          omega
        · simpa [digitVals] using ihne

theorem numBoundary_head {rest : List Char} (h : numBoundary rest) :
    ∀ c rs, rest = c :: rs → digitVal c = none := by
  intro c rs hr
  subst hr
  exact h.1

theorem parseExpPart_boundary (neg : Bool) (ds : List Nat) (e : Nat)
    (rest : List Char) (h : numBoundary rest) :
    parseExpPart neg ds e rest
      = some (.num (applySign neg (digitsToNat ds)) e, rest) := by
  cases rest with
  | nil => rfl
  | cons c r =>
    obtain ⟨-, -, he, hE⟩ := h
    simp only [parseExpPart]
    rw [if_neg]
    rintro (rfl | rfl)
    · exact he rfl
    · exact hE rfl

theorem parseNumTail_int (neg : Bool) (n : Nat) (rest : List Char)
    (hrest : numBoundary rest) :
    parseNumTail neg (natStr n ++ rest) = some (.num (applySign neg n) 0, rest) := by
  obtain ⟨hall, hval, hne, hhead⟩ := natChars_spec (n + 1) n (by omega)
  have hrd : readDigits (natStr n ++ rest) = (digitVals (natStr n), rest) :=
    readDigits_of_digits _ _ hall (numBoundary_head hrest)
  have hne2 : digitVals (natStr n) ≠ [] := by
    simpa [digitVals] using hne
  have hvaln : digitsToNat (digitVals (natStr n)) = n := hval
  obtain ⟨d0, ds0, hds0⟩ := List.exists_cons_of_ne_nil hne2
  have hlz : ¬(1 < (d0 :: ds0).length ∧ (d0 :: ds0).head? = some 0) := by
    rintro ⟨h1, h0⟩
    rw [← hds0] at h0
    have hn0 := hhead h0
    subst hn0
    have hv0 : digitVals (natStr 0) = [0] := rfl
    rw [hv0] at hds0
    cases hds0
    simp at h1
  cases rest with
  | nil =>
    simp only [parseNumTail, hrd, hds0]
    rw [if_neg hlz]
    rw [parseExpPart_boundary neg (d0 :: ds0) 0 [] trivial, ← hds0, hvaln]
  | cons c r =>
    obtain ⟨hc, hdot, hce, hcE⟩ := hrest
    simp only [parseNumTail, hrd, hds0]
    rw [if_neg hlz]
    have hsplit : (match c :: r with
        | '.' :: r2 =>
          match readDigits r2 with
          | ([], _) => none
          | (fs, r3) => parseExpPart neg ((d0 :: ds0) ++ fs) fs.length r3
        | _ => parseExpPart neg (d0 :: ds0) 0 (c :: r))
        = parseExpPart neg (d0 :: ds0) 0 (c :: r) := by
      split
      · rename_i heq
        injection heq with h1 h2
        exact absurd h1 hdot
      · rfl
    rw [hsplit, parseExpPart_boundary neg (d0 :: ds0) 0 (c :: r) ⟨hc, hdot, hce, hcE⟩,
      ← hds0, hvaln]

theorem parseNumTail_frac (neg : Bool) (n e : Nat) (he : 0 < e) (rest : List Char)
    (hrest : numBoundary rest) :
    parseNumTail neg (fracChars n e ++ rest)
      = some (.num (applySign neg n) e, rest) := by
  obtain ⟨hall, hval, hne, hhead⟩ := natChars_spec (n + 1) n (by omega)
  have hvaln : digitsToNat (digitVals (natStr n)) = n := hval
  have hheadn : (digitVals (natStr n)).head? = some 0 → n = 0 := hhead
  have halln : ∀ c ∈ natStr n, (digitVal c).isSome := hall
  set L := natStr n with hL
  set ds := padZeros L (e + 1) with hds
  have hdl : ds.length = (e + 1 - L.length) + L.length := by
    simp [hds, padZeros]
  have hLne : L ≠ [] := hne
  have hLpos : 0 < L.length := List.length_pos.mpr hLne
  have hlen : e + 1 ≤ ds.length := by omega
  set j := ds.length - e with hj
  have hje : j + e = ds.length := by omega
  have hallds : ∀ c ∈ ds, (digitVal c).isSome := by
    intro c hc
    rcases List.mem_append.mp hc with h | h
    · rw [List.eq_of_mem_replicate h]
      rfl
    · exact halln c h
  have hdvds : digitVals ds = List.replicate (e + 1 - L.length) 0 ++ digitVals L := by
    rw [hds, padZeros, digitVals, List.map_append, List.map_replicate]
    rfl
  have hvds : digitsToNat (digitVals ds) = n := by
    rw [hdvds, digitsToNat_replicate_zero, hvaln]
  have htake_len : (ds.take j).length = j := by
    simp [List.length_take]
    omega
  have hdrop_len : (ds.drop j).length = e := by
    simp [List.length_drop]
    omega
  have hshape : fracChars n e ++ rest = ds.take j ++ '.' :: (ds.drop j ++ rest) := by
    simp [fracChars, hds, hL, hj, List.append_assoc]
  have hrd1 : readDigits (ds.take j ++ '.' :: (ds.drop j ++ rest))
      = (digitVals (ds.take j), '.' :: (ds.drop j ++ rest)) := by
    refine readDigits_of_digits _ _ ?_ ?_
    · intro c hc
      exact hallds c (List.take_subset _ _ hc)
    · intro c rs hcr
      cases hcr
      rfl
  have htne : digitVals (ds.take j) ≠ [] := by
    have hlt : (digitVals (ds.take j)).length = j := by
      rw [digitVals, List.length_map]
      exact htake_len
    intro hnil
    rw [hnil] at hlt
    simp at hlt
    omega
  obtain ⟨d0, ds0, hds0⟩ := List.exists_cons_of_ne_nil htne
  have hrd2 : readDigits (ds.drop j ++ rest) = (digitVals (ds.drop j), rest) := by
    refine readDigits_of_digits _ _ ?_ (numBoundary_head hrest)
    intro c hc
    exact hallds c (List.drop_subset _ _ hc)
  have hdne : digitVals (ds.drop j) ≠ [] := by
    have hld : (digitVals (ds.drop j)).length = e := by
      rw [digitVals, List.length_map]
      exact hdrop_len
    intro hnil
    rw [hnil] at hld
    simp at hld
    omega
  obtain ⟨f0, fs0, hfs0⟩ := List.exists_cons_of_ne_nil hdne
  have hlz : ¬(1 < (d0 :: ds0).length ∧ (d0 :: ds0).head? = some 0) := by
    rintro ⟨h1, h0⟩
    have hlen0 : (d0 :: ds0).length = j := by
      rw [← hds0, digitVals, List.length_map]
      exact htake_len
    have hj1 : 1 < j := by omega
    have hLbig : e + 1 < ds.length := by omega
    have hpad0 : e + 1 - L.length = 0 := by omega
    have hds_eq : ds = L := by
      rw [hds, padZeros]
      rw [show e + 1 - L.length = 0 from hpad0]
      rfl
    obtain ⟨x, xs, hx⟩ : ∃ x xs, ds = x :: xs :=
      List.exists_cons_of_ne_nil (by rw [hds_eq]; exact hLne)
    obtain ⟨j2, hj2⟩ : ∃ j2, j = j2 + 1 := ⟨j - 1, by omega⟩
    have hd0 : d0 = 0 := by
      simpa using h0
    have hdsx : (digitVals ds).head? = some 0 := by
      rw [hx] at hds0 ⊢
      rw [hj2] at hds0
      simp only [List.take_succ_cons, digitVals, List.map_cons] at hds0 ⊢
      rw [List.head?_cons]
      cases hds0
      rw [hd0]
    rw [hds_eq] at hdsx
    have hn0 := hheadn hdsx
    have : L.length = 1 := by
      rw [hL, hn0]
      rfl
    omega
  have hfrac : parseNumTail neg (fracChars n e ++ rest)
      = parseExpPart neg ((d0 :: ds0) ++ (f0 :: fs0)) (f0 :: fs0).length rest := by
    rw [hshape]
    simp only [parseNumTail, hrd1, hds0]
    rw [if_neg hlz]
    simp only [hrd2, hfs0]
  rw [hfrac, parseExpPart_boundary _ _ _ _ hrest]
  have hnum : digitsToNat ((d0 :: ds0) ++ (f0 :: fs0)) = n := by
    rw [← hds0, ← hfs0]
    have : digitVals (ds.take j) ++ digitVals (ds.drop j) = digitVals ds := by
      rw [digitVals, digitVals, digitVals, ← List.map_append, List.take_append_drop]
    rw [this, hvds]
  have hflen : (f0 :: fs0).length = e := by
    rw [← hfs0, digitVals, List.length_map]
    exact hdrop_len
  rw [hnum, hflen]

theorem padZeros_digits (cs : List Char) (len : Nat)
    (h : ∀ c ∈ cs, (digitVal c).isSome) :
    ∀ c ∈ padZeros cs len, (digitVal c).isSome := by
  intro c hc
  rcases List.mem_append.mp hc with h2 | h2
  · rw [List.eq_of_mem_replicate h2]
    rfl
  · exact h c h2

theorem natStr_head_digit (n : Nat) :
    ∃ c t, natStr n = c :: t ∧ (digitVal c).isSome := by
  obtain ⟨hall, -, hne, -⟩ := natChars_spec (n + 1) n (by omega)
  obtain ⟨c, t, hct⟩ := List.exists_cons_of_ne_nil hne
  exact ⟨c, t, hct, hall c (by rw [hct]; simp)⟩

theorem fracChars_head_digit (n e : Nat) :
    ∃ c t, fracChars n e = c :: t ∧ (digitVal c).isSome := by
  have hspec := natChars_spec (n + 1) n (by omega)
  have hall := padZeros_digits (natStr n) (e + 1) hspec.1
  set ds := padZeros (natStr n) (e + 1) with hds
  have hlen : e + 1 ≤ ds.length := by
    simp [hds, padZeros]
    omega
  obtain ⟨x, xs, hx⟩ : ∃ x xs, ds = x :: xs :=
    List.exists_cons_of_ne_nil (by
      intro h0
      rw [h0] at hlen
      simp at hlen)
  obtain ⟨j2, hj2⟩ : ∃ j2, ds.length - e = j2 + 1 := ⟨ds.length - e - 1, by omega⟩
  refine ⟨x, xs.take j2 ++ '.' :: ds.drop (ds.length - e), ?_, ?_⟩
  · simp only [fracChars, ← hds]
    rw [hj2, hx]
    simp [List.take_succ_cons]
  · refine hall x ?_
    rw [hx]
    exact List.mem_cons_self x xs

theorem parseNumber_not_minus (cs : List Char) (h : ∀ r, cs ≠ '-' :: r) :
    parseNumber cs = parseNumTail false cs := by
  simp only [parseNumber]

/-- The printed decimal of `m / 10 ^ e` parses back to exactly `(m, e)`
whenever what follows cannot be confused for more of the number. -/
theorem parseNumber_print (m : Int) (e : Nat) (rest : List Char)
    (hrest : numBoundary rest) :
    parseNumber (numChars m e ++ rest) = some (.num m e, rest) := by
  have hneg : applySign true m.natAbs = -(m.natAbs : Int) := rfl
  by_cases hm : m < 0
  · by_cases he0 : e = 0
    · subst he0
      have h1 : numChars m 0 = '-' :: natStr m.natAbs := by
        simp [numChars, hm]
      rw [h1, List.cons_append]
      have h2 : parseNumber ('-' :: (natStr m.natAbs ++ rest))
          = parseNumTail true (natStr m.natAbs ++ rest) := rfl
      rw [h2, parseNumTail_int true m.natAbs rest hrest]
      have h3 : applySign true m.natAbs = m := by
        rw [show applySign true m.natAbs = -(m.natAbs : Int) from rfl]
        omega
      rw [h3]
    · have hepos : 0 < e := Nat.pos_of_ne_zero he0
      have h1 : numChars m e = '-' :: fracChars m.natAbs e := by
        simp [numChars, he0, hm]
      rw [h1, List.cons_append]
      have h2 : parseNumber ('-' :: (fracChars m.natAbs e ++ rest))
          = parseNumTail true (fracChars m.natAbs e ++ rest) := rfl
      rw [h2, parseNumTail_frac true m.natAbs e hepos rest hrest]
      have h3 : applySign true m.natAbs = m := by
        rw [show applySign true m.natAbs = -(m.natAbs : Int) from rfl]
        omega
      rw [h3]
  · by_cases he0 : e = 0
    · subst he0
      have h1 : numChars m 0 = natStr m.natAbs := by
        simp [numChars, hm]
      rw [h1]
      obtain ⟨c, t, hct, hcd⟩ := natStr_head_digit m.natAbs
      have hnm : ∀ r, natStr m.natAbs ++ rest ≠ '-' :: r := by
        intro r hr
        rw [hct, List.cons_append] at hr
        injection hr with hc1 hc2
        rw [hc1] at hcd
        simp [digitVal] at hcd
      rw [parseNumber_not_minus _ hnm, parseNumTail_int false m.natAbs rest hrest]
      have h3 : applySign false m.natAbs = m := by
        rw [show applySign false m.natAbs = (m.natAbs : Int) from rfl]
        omega
      rw [h3]
    · have hepos : 0 < e := Nat.pos_of_ne_zero he0
      have h1 : numChars m e = fracChars m.natAbs e := by
        simp [numChars, he0, hm]
      rw [h1]
      obtain ⟨c, t, hct, hcd⟩ := fracChars_head_digit m.natAbs e
      have hnm : ∀ r, fracChars m.natAbs e ++ rest ≠ '-' :: r := by
        intro r hr
        rw [hct, List.cons_append] at hr
        injection hr with hc1 hc2
        rw [hc1] at hcd
        simp [digitVal] at hcd
      rw [parseNumber_not_minus _ hnm, parseNumTail_frac false m.natAbs e hepos rest hrest]
      have h3 : applySign false m.natAbs = m := by
        rw [show applySign false m.natAbs = (m.natAbs : Int) from rfl]
        omega
      rw [h3]

theorem hexVal_digitChar {d : Nat} (h : d < 16) :
    hexVal (Nat.digitChar d) = some d := by
  interval_cases d <;> rfl

theorem readHex4_hex4 (v : Nat) (h : v < 65536) (r : List Char) :
    readHex4 (hex4 v ++ r) = some (v, r) := by
  have h1 : v / 4096 % 16 < 16 := Nat.mod_lt _ (by omega)
  have h2 : v / 256 % 16 < 16 := Nat.mod_lt _ (by omega)
  have h3 : v / 16 % 16 < 16 := Nat.mod_lt _ (by omega)
  have h4 : v % 16 < 16 := Nat.mod_lt _ (by omega)
  simp only [hex4, List.cons_append, List.nil_append, readHex4,
    hexVal_digitChar h1, hexVal_digitChar h2, hexVal_digitChar h3,
    hexVal_digitChar h4]
  have hv : 4096 * (v / 4096 % 16) + 256 * (v / 256 % 16) + 16 * (v / 16 % 16)
      + v % 16 = v := by omega
  rw [hv]

theorem char_valid_nat (c : Char) :
    c.toNat < 0xd800 ∨ (0xe000 ≤ c.toNat ∧ c.toNat < 0x110000) := by
  rcases c.valid with h | ⟨h1, h2⟩
  · exact Or.inl h
  · exact Or.inr ⟨h1, h2⟩

theorem parseStrChars_u (f : Nat) (X : List Char) :
    parseStrChars (f + 1) ('\\' :: 'u' :: X)
      = match readHex4 X with
        | none => none
        | some (n, r3) =>
          if n < 0xd800 ∨ 0xe000 ≤ n then
            (parseStrChars f r3).map (fun p => (Char.ofNat n :: p.1, p.2))
          else if n < 0xdc00 then
            match r3 with
            | '\\' :: 'u' :: r4 =>
              match readHex4 r4 with
              | some (n2, r5) =>
                if 0xdc00 ≤ n2 ∧ n2 < 0xe000 then
                  (parseStrChars f r5).map (fun p =>
                    (Char.ofNat (0x10000 + (n - 0xd800) * 1024 + (n2 - 0xdc00)) :: p.1, p.2))
                else none
              | none => none
            | _ => none
          else none := rfl

theorem parseStrChars_escape :
    ∀ (cs : List Char) (rest : List Char) (fuel : Nat), cs.length < fuel →
    parseStrChars fuel ((cs.map escChar).flatten ++ '"' :: rest) = some (cs, rest) := by
  intro cs
  induction cs with
  | nil =>
    intro rest fuel hf
    obtain ⟨f, rfl⟩ : ∃ f, fuel = f + 1 := ⟨fuel - 1, by omega⟩
    rfl
  | cons c cs' ih =>
    intro rest fuel hf
    obtain ⟨f, rfl⟩ : ∃ f, fuel = f + 1 := ⟨fuel - 1, by omega⟩
    have hf' : cs'.length < f := by
      simp only [List.length_cons] at hf
      omega
    have ihh := ih rest f hf'
    rw [List.map_cons, List.flatten_cons, List.append_assoc]
    set tail := (cs'.map escChar).flatten ++ '"' :: rest with htail
    by_cases hq : c = '"'
    · subst hq
      have hesc : escChar '"' = ['\\', '"'] := rfl
      rw [hesc]
      show (parseStrChars f tail).map (fun p => ('"' :: p.1, p.2)) = _
      rw [ihh]
      rfl
    · by_cases hbs : c = '\\'
      · subst hbs
        have hesc : escChar '\\' = ['\\', '\\'] := rfl
        rw [hesc]
        show (parseStrChars f tail).map (fun p => ('\\' :: p.1, p.2)) = _
        rw [ihh]
        rfl
      · by_cases hb : c = '\x08'
        · subst hb
          have hesc : escChar '\x08' = ['\\', 'b'] := rfl
          rw [hesc]
          show (parseStrChars f tail).map (fun p => ('\x08' :: p.1, p.2)) = _
          rw [ihh]
          rfl
        · by_cases hform : c = '\x0c'
          · subst hform
            have hesc : escChar '\x0c' = ['\\', 'f'] := rfl
            rw [hesc]
            show (parseStrChars f tail).map (fun p => ('\x0c' :: p.1, p.2)) = _
            rw [ihh]
            rfl
          · by_cases hn : c = '\n'
            · subst hn
              have hesc : escChar '\n' = ['\\', 'n'] := rfl
              rw [hesc]
              show (parseStrChars f tail).map (fun p => ('\n' :: p.1, p.2)) = _
              rw [ihh]
              rfl
            · by_cases hr : c = '\x0d'
              · subst hr
                have hesc : escChar '\x0d' = ['\\', 'r'] := rfl
                rw [hesc]
                show (parseStrChars f tail).map (fun p => ('\x0d' :: p.1, p.2)) = _
                rw [ihh]
                rfl
              · by_cases ht : c = '\t'
                · subst ht
                  have hesc : escChar '\t' = ['\\', 't'] := rfl
                  rw [hesc]
                  show (parseStrChars f tail).map (fun p => ('\t' :: p.1, p.2)) = _
                  rw [ihh]
                  rfl
                · by_cases hplain : 0x20 ≤ c.toNat ∧ c.toNat ≤ 0x7e
                  · have hesc : escChar c = [c] := by
                      simp only [escChar, if_neg hq, if_neg hbs, if_neg hb,
                        if_neg hform, if_neg hn, if_neg hr, if_neg ht, if_pos hplain]
                    rw [hesc]
                    show parseStrChars (f + 1) (c :: tail) = _
                    simp only [parseStrChars, if_neg hq, if_neg hbs, ihh]
                    rfl
                  · by_cases hbmp : c.toNat < 0x10000
                    · have hesc : escChar c = '\\' :: 'u' :: hex4 c.toNat := by
                        simp only [escChar, if_neg hq, if_neg hbs, if_neg hb,
                          if_neg hform, if_neg hn, if_neg hr, if_neg ht,
                          if_neg hplain, if_pos hbmp]
                      rw [hesc]
                      show parseStrChars (f + 1) ('\\' :: 'u' :: (hex4 c.toNat ++ tail)) = _
                      have hns : c.toNat < 0xd800 ∨ 0xe000 ≤ c.toNat := by
                        rcases char_valid_nat c with h | ⟨h1, h2⟩
                        · exact Or.inl h
                        · exact Or.inr h1
                      rw [parseStrChars_u]
                      simp only [readHex4_hex4 c.toNat (by omega) tail]
                      rw [if_pos hns, ihh]
                      simp [Char.ofNat_toNat]
                    · have hval := char_valid_nat c
                      have hhi : c.toNat < 0x110000 := by
                        rcases hval with h | ⟨h1, h2⟩ <;> omega
                      set v := c.toNat - 0x10000 with hv
                      have hesc : escChar c = ('\\' :: 'u' :: hex4 (0xd800 + v / 1024))
                          ++ ('\\' :: 'u' :: hex4 (0xdc00 + v % 1024)) := by
                        simp only [escChar, if_neg hq, if_neg hbs, if_neg hb,
                          if_neg hform, if_neg hn, if_neg hr, if_neg ht,
                          if_neg hplain, if_neg hbmp]
                      rw [hesc]
                      have hv1 : v / 1024 < 1024 := by omega
                      have hv2 : v % 1024 < 1024 := Nat.mod_lt _ (by omega)
                      show parseStrChars (f + 1)
                        ('\\' :: 'u' :: (hex4 (0xd800 + v / 1024)
                          ++ ('\\' :: 'u' :: (hex4 (0xdc00 + v % 1024) ++ tail)))) = _
                      rw [parseStrChars_u]
                      simp only [readHex4_hex4 (0xd800 + v / 1024) (by omega)]
                      rw [if_neg (by omega :
                        ¬(0xd800 + v / 1024 < 0xd800 ∨ 0xe000 ≤ 0xd800 + v / 1024))]
                      rw [if_pos (by omega : 0xd800 + v / 1024 < 0xdc00)]
                      simp only [readHex4_hex4 (0xdc00 + v % 1024) (by omega) tail]
                      rw [if_pos (⟨by omega, by omega⟩ :
                        0xdc00 ≤ 0xdc00 + v % 1024 ∧ 0xdc00 + v % 1024 < 0xe000)]
                      rw [ihh]
                      have hchar : 0x10000 + (0xd800 + v / 1024 - 0xd800) * 1024
                          + (0xdc00 + v % 1024 - 0xdc00) = c.toNat := by omega
                      rw [hchar]
                      simp [Char.ofNat_toNat]

theorem skipWs_cons_ws {c : Char} (h : c = ' ' ∨ c = '\t' ∨ c = '\n' ∨ c = '\x0d')
    (cs : List Char) : skipWs (c :: cs) = skipWs cs := by
  simp only [skipWs, if_pos h]

theorem skipWs_cons_not_ws {c : Char}
    (h : ¬(c = ' ' ∨ c = '\t' ∨ c = '\n' ∨ c = '\x0d'))
    (cs : List Char) : skipWs (c :: cs) = c :: cs := by
  simp only [skipWs, if_neg h]

theorem skipWs_spaces (n : Nat) (cs : List Char) :
    skipWs (spaces n ++ cs) = skipWs cs := by
  induction n with
  | zero => rfl
  | succ k ih =>
    rw [spaces, List.replicate_succ, List.cons_append,
      skipWs_cons_ws (Or.inl rfl)]
    exact ih

theorem skipWs_idem (cs : List Char) : skipWs (skipWs cs) = skipWs cs := by
  induction cs with
  | nil => rfl
  | cons c r ih =>
    by_cases h : c = ' ' ∨ c = '\t' ∨ c = '\n' ∨ c = '\x0d'
    · rw [skipWs_cons_ws h, ih]
    · rw [skipWs_cons_not_ws h, skipWs_cons_not_ws h]

theorem parseJson_skipWs (f : Nat) (cs : List Char) :
    parseJson f cs = parseJson f (skipWs cs) := by
  cases f with
  | zero => rfl
  | succ f => simp only [parseJson, skipWs_idem]

theorem parseField_skipWs (f : Nat) (cs : List Char) :
    parseField f cs = parseField f (skipWs cs) := by
  cases f with
  | zero => rfl
  | succ f => simp only [parseField, skipWs_idem]

theorem parseItems_skipWs (f : Nat) (cs : List Char) :
    parseItems f cs = parseItems f (skipWs cs) := by
  cases f with
  | zero => rfl
  | succ f => simp only [parseItems, skipWs_idem]

theorem parseFields_skipWs (f : Nat) (cs : List Char) :
    parseFields f cs = parseFields f (skipWs cs) := by
  cases f with
  | zero => rfl
  | succ f => simp only [parseFields, skipWs_idem]

theorem parseJson_ws_prefix (f k : Nat) (X : List Char) :
    parseJson f ('\n' :: (spaces k ++ X)) = parseJson f X := by
  rw [parseJson_skipWs, skipWs_cons_ws (by simp), skipWs_spaces,
    ← parseJson_skipWs]

theorem parseField_ws_prefix (f k : Nat) (X : List Char) :
    parseField f ('\n' :: (spaces k ++ X)) = parseField f X := by
  rw [parseField_skipWs, skipWs_cons_ws (by simp), skipWs_spaces,
    ← parseField_skipWs]

theorem parseFields_ws_prefix (f k : Nat) (X : List Char) :
    parseFields f ('\n' :: (spaces k ++ X)) = parseFields f X := by
  rw [parseFields_skipWs, skipWs_cons_ws (by simp), skipWs_spaces,
    ← parseFields_skipWs]

theorem parseItems_ws_prefix (f k : Nat) (X : List Char) :
    parseItems f ('\n' :: (spaces k ++ X)) = parseItems f X := by
  rw [parseItems_skipWs, skipWs_cons_ws (by simp), skipWs_spaces,
    ← parseItems_skipWs]
theorem parseJson_quote (f : Nat) (X : List Char) :
    parseJson (f + 1) ('"' :: X)
      = (parseStrChars (X.length + 1) X).map (fun p => (Json.str ⟨p.1⟩, p.2)) := rfl

theorem parseJson_obj_step (f : Nat) (R : List Char) :
    parseJson (f + 1) ('{' :: R)
      = match skipWs R with
        | '}' :: r => some (.obj [], r)
        | cs2 =>
          match parseField f cs2 with
          | none => none
          | some (kv, r1) =>
            match parseFields f r1 with
            | none => none
            | some (kvs, r2) => some (.obj (kv :: kvs), r2) := rfl

theorem parseJson_arr_step (f : Nat) (R : List Char) :
    parseJson (f + 1) ('[' :: R)
      = match skipWs R with
        | ']' :: r => some (.arr [], r)
        | cs2 =>
          match parseJson f cs2 with
          | none => none
          | some (x, r1) =>
            match parseItems f r1 with
            | none => none
            | some (xs, r2) => some (.arr (x :: xs), r2) := rfl

theorem parseJson_minus (f : Nat) (R : List Char) :
    parseJson (f + 1) ('-' :: R) = parseNumber ('-' :: R) := rfl

theorem parseField_quote (f : Nat) (Y : List Char) :
    parseField (f + 1) ('"' :: Y)
      = match parseStrChars (Y.length + 1) Y with
        | none => none
        | some (k, r1) =>
          match skipWs r1 with
          | ':' :: r2 =>
            match parseJson f r2 with
            | none => none
            | some (v, r3) => some ((⟨k⟩, v), r3)
          | _ => none := rfl
theorem digitVal_isSome_facts {c : Char} (h : (digitVal c).isSome) :
    ¬(c = ' ' ∨ c = '\t' ∨ c = '\n' ∨ c = '\x0d')
      ∧ c ≠ 'n' ∧ c ≠ 't' ∧ c ≠ 'f' ∧ c ≠ '"' ∧ c ≠ '[' ∧ c ≠ '{' := by
  refine ⟨?_, ?_, ?_, ?_, ?_, ?_, ?_⟩
  · rintro (rfl | rfl | rfl | rfl) <;> simp [digitVal] at h
  all_goals rintro rfl
  all_goals simp [digitVal] at h

theorem parseJson_digit (f : Nat) {c : Char} (hc : (digitVal c).isSome)
    (r : List Char) :
    parseJson (f + 1) (c :: r) = parseNumber (c :: r) := by
  obtain ⟨hws, hn, ht, hf, hq, hlb, hob⟩ := digitVal_isSome_facts hc
  have h1 : skipWs (c :: r) = c :: r := skipWs_cons_not_ws hws r
  simp only [parseJson, h1]
  rw [if_neg hn, if_neg ht, if_neg hf, if_neg hq, if_neg hlb, if_neg hob]

theorem parseFields_close (f : Nat) (cs r : List Char)
    (h : skipWs cs = '}' :: r) :
    parseFields (f + 1) cs = some ([], r) := by
  simp only [parseFields, h]

theorem parseFields_comma (f : Nat) (cs r : List Char)
    (h : skipWs cs = ',' :: r) :
    parseFields (f + 1) cs
      = match parseField f r with
        | none => none
        | some (kv, r1) =>
          match parseFields f r1 with
          | none => none
          | some (kvs, r2) => some (kv :: kvs, r2) := by
  simp only [parseFields, h]

theorem parseItems_close (f : Nat) (cs r : List Char)
    (h : skipWs cs = ']' :: r) :
    parseItems (f + 1) cs = some ([], r) := by
  simp only [parseItems, h]

theorem parseItems_comma (f : Nat) (cs r : List Char)
    (h : skipWs cs = ',' :: r) :
    parseItems (f + 1) cs
      = match parseJson f r with
        | none => none
        | some (x, r1) =>
          match parseItems f r1 with
          | none => none
          | some (xs, r2) => some (x :: xs, r2) := by
  simp only [parseItems, h]

theorem escChar_ne_nil (c : Char) : escChar c ≠ [] := by
  unfold escChar
  split_ifs <;> simp

theorem escFlatten_length (cs : List Char) :
    cs.length ≤ ((cs.map escChar).flatten).length := by
  induction cs with
  | nil => simp
  | cons c cs' ih =>
    rw [List.map_cons, List.flatten_cons, List.length_append, List.length_cons]
    have h1 : 1 ≤ (escChar c).length :=
      List.length_pos.mpr (escChar_ne_nil c)
    omega

theorem parseJson_str (f : Nat) (s : String) (tail : List Char) :
    parseJson (f + 1) (escString s ++ tail) = some (.str s, tail) := by
  have hshape : escString s ++ tail
      = '"' :: (((s.data.map escChar).flatten) ++ '"' :: tail) := by
    simp [escString, List.append_assoc]
  rw [hshape, parseJson_quote]
  rw [parseStrChars_escape s.data tail _ (by
    have := escFlatten_length s.data
    simp only [List.length_append, List.length_cons]
    omega)]
  rfl
theorem parseJson_num (f : Nat) (m : Int) (e : Nat) (rest : List Char)
    (hrest : numBoundary rest) :
    parseJson (f + 1) (numChars m e ++ rest) = some (.num m e, rest) := by
  by_cases hm : m < 0
  · have hhead : ∃ X, numChars m e ++ rest = '-' :: X := by
      by_cases he0 : e = 0
      · subst he0
        exact ⟨natStr m.natAbs ++ rest, by simp [numChars, hm]⟩
      · exact ⟨fracChars m.natAbs e ++ rest, by simp [numChars, he0, hm]⟩
    obtain ⟨X, hX⟩ := hhead
    rw [hX, parseJson_minus, ← hX, parseNumber_print m e rest hrest]
  · have hhead : ∃ c t, numChars m e ++ rest = c :: t ∧ (digitVal c).isSome := by
      by_cases he0 : e = 0
      · subst he0
        obtain ⟨c, t, hct, hcd⟩ := natStr_head_digit m.natAbs
        refine ⟨c, t ++ rest, ?_, hcd⟩
        simp [numChars, hm, hct]
      · obtain ⟨c, t, hct, hcd⟩ := fracChars_head_digit m.natAbs e
        refine ⟨c, t ++ rest, ?_, hcd⟩
        simp [numChars, he0, hm, hct]
    obtain ⟨c, t, hct, hcd⟩ := hhead
    rw [hct, parseJson_digit f hcd, ← hct, parseNumber_print m e rest hrest]
theorem parseJson_space (f : Nat) (X : List Char) :
    parseJson f (' ' :: X) = parseJson f X := by
  rw [parseJson_skipWs, skipWs_cons_ws (Or.inl rfl), ← parseJson_skipWs]

theorem escString_cons (k : String) (Y : List Char) :
    escString k ++ Y = '"' :: ((k.data.map escChar).flatten ++ '"' :: Y) := by
  simp [escString, List.append_assoc]

theorem string_eta (k : String) : (⟨k.data⟩ : String) = k := rfl

/-- Parsing one printed `"key": value` object member, given that the value
text parses to `v`. -/
theorem parseField_entryfield (f : Nat) (k : String) (v : Json) (pv Y : List Char)
    (hv : parseJson (f + 1) (pv ++ Y) = some (v, Y)) :
    parseField (f + 2) (escString k ++ ':' :: ' ' :: (pv ++ Y)) = some ((k, v), Y) := by
  rw [escString_cons, parseField_quote (f + 1)]
  rw [parseStrChars_escape k.data (':' :: ' ' :: (pv ++ Y)) _ (by
    have := escFlatten_length k.data
    simp only [List.length_append, List.length_cons]
    omega)]
  have hcolon : skipWs (':' :: ' ' :: (pv ++ Y)) = ':' :: ' ' :: (pv ++ Y) :=
    skipWs_cons_not_ws (by decide) _
  simp only [hcolon, parseJson_space, hv, string_eta]
theorem parseJson_obj_go (f : Nat) (R cs2 : List Char) (kv : String × Json)
    (r1 : List Char) (hskip : skipWs R = cs2) (hne : ∀ r, cs2 ≠ '}' :: r)
    (hfield : parseField f cs2 = some (kv, r1)) :
    parseJson (f + 1) ('{' :: R)
      = match parseFields f r1 with
        | none => none
        | some (kvs, r2) => some (.obj (kv :: kvs), r2) := by
  rw [parseJson_obj_step, hskip]
  split
  · rename_i r
    exact absurd rfl (hne r)
  · rw [hfield]

theorem parseJson_arr_go (f : Nat) (R cs2 : List Char) (x : Json)
    (r1 : List Char) (hskip : skipWs R = cs2) (hne : ∀ r, cs2 ≠ ']' :: r)
    (hitem : parseJson f cs2 = some (x, r1)) :
    parseJson (f + 1) ('[' :: R)
      = match parseItems f r1 with
        | none => none
        | some (xs, r2) => some (.arr (x :: xs), r2) := by
  rw [parseJson_arr_step, hskip]
  split
  · rename_i r
    exact absurd rfl (hne r)
  · rw [hitem]

/-- Parsing a printed entry object `{"sensor": s, "value": m/10^e,
"timestamp": t}`. -/
theorem parseJson_entry (F ind : Nat) (hF : 5 ≤ F) (s : String) (m : Int) (e : Nat)
    (t : Int) (tail : List Char) :
    parseJson F (printJson ind (Json.obj [("sensor", .str s), ("value", .num m e),
        ("timestamp", .num t 0)]) ++ tail)
      = some (.obj [("sensor", .str s), ("value", .num m e),
          ("timestamp", .num t 0)], tail) := by
  obtain ⟨f, rfl⟩ : ∃ f, F = f + 5 := ⟨F - 5, by omega⟩
  set R4 : List Char := '\n' :: (spaces ind ++ '}' :: tail) with hR4
  set R3 : List Char := ',' :: '\n' :: (spaces (ind + 2)
    ++ (escString "timestamp" ++ ':' :: ' ' :: (numChars t 0 ++ R4))) with hR3
  set R2 : List Char := ',' :: '\n' :: (spaces (ind + 2)
    ++ (escString "value" ++ ':' :: ' ' :: (numChars m e ++ R3))) with hR2
  set X1 : List Char := escString "sensor" ++ ':' :: ' ' :: (escString s ++ R2) with hX1
  have hshape : printJson ind (Json.obj [("sensor", .str s), ("value", .num m e),
      ("timestamp", .num t 0)]) ++ tail
      = '{' :: '\n' :: (spaces (ind + 2) ++ X1) := by
    simp [printJson, printFields, hX1, hR2, hR3, hR4, List.append_assoc]
  have hws : skipWs ('\n' :: (spaces (ind + 2) ++ X1)) = X1 := by
    rw [skipWs_cons_ws (by simp), skipWs_spaces, hX1, escString_cons]
    exact skipWs_cons_not_ws (by decide) _
  have hne1 : ∀ r, X1 ≠ '}' :: r := by
    intro r hr
    rw [hX1, escString_cons] at hr
    cases hr
  have hfield1 : parseField (f + 4) X1 = some (("sensor", Json.str s), R2) := by
    rw [hX1]
    exact parseField_entryfield (f + 2) "sensor" (Json.str s) (escString s) R2
      (parseJson_str (f + 2) s R2)
  have hfield2 : parseField (f + 3)
      (escString "value" ++ ':' :: ' ' :: (numChars m e ++ R3))
      = some (("value", Json.num m e), R3) :=
    parseField_entryfield (f + 1) "value" (Json.num m e) (numChars m e) R3
      (parseJson_num (f + 1) m e R3 ⟨by decide, by decide, by decide, by decide⟩)
  have hfield3 : parseField (f + 2)
      (escString "timestamp" ++ ':' :: ' ' :: (numChars t 0 ++ R4))
      = some (("timestamp", Json.num t 0), R4) :=
    parseField_entryfield f "timestamp" (Json.num t 0) (numChars t 0) R4
      (parseJson_num f t 0 R4 ⟨by decide, by decide, by decide, by decide⟩)
  have hfields3 : parseFields (f + 2) R4 = some ([], tail) := by
    apply parseFields_close (f + 1)
    rw [hR4, skipWs_cons_ws (by simp), skipWs_spaces,
      skipWs_cons_not_ws (by decide)]
  have hfields2 : parseFields (f + 3) R3 = some ([("timestamp", Json.num t 0)], tail) := by
    rw [hR3, parseFields_comma (f + 2) _ _ (skipWs_cons_not_ws (by decide) _),
      parseField_ws_prefix]
    simp only [hfield3, hfields3]
  have hfields1 : parseFields (f + 4) R2
      = some ([("value", Json.num m e), ("timestamp", Json.num t 0)], tail) := by
    rw [hR2, parseFields_comma (f + 3) _ _ (skipWs_cons_not_ws (by decide) _),
      parseField_ws_prefix]
    simp only [hfield2, hfields2]
  rw [hshape, parseJson_obj_go (f + 4) _ X1 _ _ hws hne1 hfield1]
  simp only [hfields1]
theorem parseItems_entries (us : List UnifiedEntry) (ind : Nat) :
    ∀ (F : Nat), us.length + 6 ≤ F → ∀ (k : Nat) (tail : List Char),
    (∀ u ∈ us, WFEntry u) →
    parseItems F (printItems ind (us.map entryJson) ++ '\n' :: (spaces k ++ ']' :: tail))
      = some (us.map entryJson, tail) := by
  induction us with
  | nil =>
    intro F hF k tail hWF
    obtain ⟨f, rfl⟩ : ∃ f, F = f + 1 := ⟨F - 1, by omega⟩
    rw [List.map_nil, printItems, List.nil_append, parseItems_ws_prefix]
    exact parseItems_close f _ _ (skipWs_cons_not_ws (by decide) _)
  | cons u us' ih =>
    intro F hF k tail hWF
    obtain ⟨f, rfl⟩ : ∃ f, F = f + 1 := ⟨F - 1, by omega⟩
    rw [List.length_cons] at hF
    obtain ⟨⟨s, hs⟩, ⟨m, e, hv⟩, ⟨t, ht⟩⟩ := hWF u (by simp)
    have hentry : entryJson u = Json.obj [("sensor", Json.str s),
        ("value", Json.num m e), ("timestamp", Json.num t 0)] := by
      rw [entryJson, hs, hv, ht]
    have hshape : printItems ind ((u :: us').map entryJson)
          ++ '\n' :: (spaces k ++ ']' :: tail)
        = ',' :: '\n' :: (spaces ind ++ (printJson ind (entryJson u)
            ++ (printItems ind (us'.map entryJson)
              ++ '\n' :: (spaces k ++ ']' :: tail)))) := by
      simp [printItems, List.append_assoc]
    rw [hshape, parseItems_comma f _ _ (skipWs_cons_not_ws (by decide) _),
      parseJson_ws_prefix]
    have hitem : parseJson f (printJson ind (entryJson u)
          ++ (printItems ind (us'.map entryJson) ++ '\n' :: (spaces k ++ ']' :: tail)))
        = some (entryJson u,
            printItems ind (us'.map entryJson) ++ '\n' :: (spaces k ++ ']' :: tail)) := by
      rw [hentry]
      exact parseJson_entry f ind (by omega) s m e t _
    rw [hitem]
    have hrest := ih f (by omega) k tail (fun v hv2 => hWF v (by simp [hv2]))
    simp only [hrest, List.map_cons]

theorem printItems_length_ge (ind : Nat) (xs : List Json) :
    xs.length ≤ (printItems ind xs).length := by
  induction xs with
  | nil => simp [printItems]
  | cons x xs' ih =>
    rw [printItems]
    simp only [List.length_cons, List.length_append]
    omega

theorem printJson_obj_length (ind : Nat) (kv : String × Json)
    (kvs : List (String × Json)) :
    2 ≤ (printJson ind (Json.obj (kv :: kvs))).length := by
  rw [printJson]
  simp

/-- Parsing the whole printed document: an array of printed entries. -/
theorem parseJson_entriesDoc (us : List UnifiedEntry) (F : Nat)
    (hF : us.length + 7 ≤ F) (tail : List Char)
    (hWF : ∀ u ∈ us, WFEntry u) :
    parseJson F (printJson 0 (Json.arr (us.map entryJson)) ++ tail)
      = some (Json.arr (us.map entryJson), tail) := by
  obtain ⟨f, rfl⟩ : ∃ f, F = f + 1 := ⟨F - 1, by omega⟩
  cases us with
  | nil =>
    rw [List.map_nil]
    have hshape : printJson 0 (Json.arr []) ++ tail = '[' :: ']' :: tail := rfl
    rw [hshape, parseJson_arr_step]
    have hcl : skipWs (']' :: tail) = ']' :: tail :=
      skipWs_cons_not_ws (by decide) _
    simp only [hcl]
  | cons u us' =>
    obtain ⟨⟨s, hs⟩, ⟨m, e, hv⟩, ⟨t, ht⟩⟩ := hWF u (by simp)
    have hentry : entryJson u = Json.obj [("sensor", Json.str s),
        ("value", Json.num m e), ("timestamp", Json.num t 0)] := by
      rw [entryJson, hs, hv, ht]
    set REST : List Char := printItems 2 (us'.map entryJson)
      ++ '\n' :: (spaces 0 ++ ']' :: tail) with hREST
    have hshape : printJson 0 (Json.arr ((u :: us').map entryJson)) ++ tail
        = '[' :: '\n' :: (spaces 2 ++ (printJson 2 (entryJson u) ++ REST)) := by
      rw [List.map_cons, printJson]
      simp [hREST, spaces, List.append_assoc]
    have hhead : ∃ Z, printJson 2 (entryJson u) = '{' :: Z := by
      rw [hentry, printJson]
      exact ⟨_, rfl⟩
    obtain ⟨Z, hZ⟩ := hhead
    have hws : skipWs ('\n' :: (spaces 2 ++ (printJson 2 (entryJson u) ++ REST)))
        = printJson 2 (entryJson u) ++ REST := by
      rw [skipWs_cons_ws (by simp), skipWs_spaces, hZ, List.cons_append]
      exact skipWs_cons_not_ws (by decide) _
    have hne : ∀ r, printJson 2 (entryJson u) ++ REST ≠ ']' :: r := by
      intro r hr
      rw [hZ, List.cons_append] at hr
      cases hr
    have hitem : parseJson f (printJson 2 (entryJson u) ++ REST)
        = some (entryJson u, REST) := by
      rw [hentry]
      exact parseJson_entry f 2 (by simp at hF; omega) s m e t REST
    rw [hshape, parseJson_arr_go f _ _ _ _ hws hne hitem]
    have hrest : parseItems f REST = some (us'.map entryJson, tail) := by
      rw [hREST]
      exact parseItems_entries us' 2 f (by simp at hF; omega) 0 tail
        (fun v hv2 => hWF v (by simp [hv2]))
    simp only [hrest, List.map_cons]
theorem jsonParse_jsonDump_entries (us : List UnifiedEntry)
    (hWF : ∀ u ∈ us, WFEntry u) :
    jsonParse (jsonDump (Json.arr (us.map entryJson)))
      = some (Json.arr (us.map entryJson)) := by
  cases us with
  | nil => rfl
  | cons u us' =>
    set doc := Json.arr ((u :: us').map entryJson) with hdoc
    have hdata : (jsonDump doc).data = printJson 0 doc := rfl
    obtain ⟨⟨s, hs⟩, ⟨m, e, hv⟩, ⟨t, ht⟩⟩ := hWF u (by simp)
    have hentry : entryJson u = Json.obj [("sensor", Json.str s),
        ("value", Json.num m e), ("timestamp", Json.num t 0)] := by
      rw [entryJson, hs, hv, ht]
    have hlen : (u :: us').length + 7 ≤ (printJson 0 doc).length + 1 := by
      rw [hdoc, List.map_cons, printJson]
      have h1 := printItems_length_ge 2 (us'.map entryJson)
      have h2 : 2 ≤ (printJson 2 (entryJson u)).length := by
        rw [hentry]
        exact printJson_obj_length 2 _ _
      simp only [List.length_cons, List.length_append, List.length_map,
        spaces, List.length_replicate, Nat.zero_add] at h1 h2 ⊢
      omega
    have hparse := parseJson_entriesDoc (u :: us')
      ((printJson 0 doc).length + 1) hlen [] hWF
    rw [List.append_nil] at hparse
    rw [← hdoc] at hparse
    simp only [jsonParse, hdata, hparse]
    rfl

/-- C8: saving a sequence of Unified Entries with `save_json_file` and then
loading that file with `load_json_file` yields exactly the saved sequence of
mappings: the `indent=2` serialization is parsed back losslessly. -/
theorem save_load_roundtrip (fs : FS) (path : String)
    (entries : List UnifiedEntry) (h : ∀ u ∈ entries, WFEntry u) :
    load_json_file (save_json_file fs path (.arr (entries.map entryJson))) path
      = .ok (.arr (entries.map entryJson)) := by
  have hsv : (save_json_file fs path (.arr (entries.map entryJson))) path
      = some (jsonDump (.arr (entries.map entryJson))) := by
    simp [save_json_file]
  simp only [load_json_file, hsv, jsonParse_jsonDump_entries entries h]

/-- Witness for C8: the spec example's two entries survive a save/load
round-trip on the fixed output path. -/
theorem save_load_roundtrip_witness :
    load_json_file (save_json_file (fun _ => none) "output.json"
        (.arr (([⟨.str "sensor-1", .num 235 1, .num 1685620800000 0⟩,
                 ⟨.str "device-2", .num 457 1, .num 1685624400000 0⟩]
          : List UnifiedEntry).map entryJson))) "output.json"
      = .ok (.arr (([⟨.str "sensor-1", .num 235 1, .num 1685620800000 0⟩,
                 ⟨.str "device-2", .num 457 1, .num 1685624400000 0⟩]
          : List UnifiedEntry).map entryJson)) := by
  apply save_load_roundtrip
  intro u hu
  simp only [List.mem_cons, List.not_mem_nil, or_false] at hu
  rcases hu with h | h <;> subst h
  · exact ⟨⟨"sensor-1", rfl⟩, ⟨235, 1, rfl⟩, ⟨1685620800000, rfl⟩⟩
  · exact ⟨⟨"device-2", rfl⟩, ⟨457, 1, rfl⟩, ⟨1685624400000, rfl⟩⟩

end SensorConverter
